import Mathlib

/-!
Verification of the storage / concurrency core of a disk-oriented relational
database (buffer pool, LRU-K replacer, extendible hash table, B+Tree index,
lock manager with deadlock detection).  Each section shallowly embeds the
relevant C++ component as executable Lean definitions and proves or refutes
the specified properties.
-/

namespace Spec2Proof

/-! # Section 1: LRU-K replacer (src/buffer/lru_k_replacer.cpp)

State of the replacer: `access_records_` is a `std::map<frame_id_t,
std::queue<size_t>>` (iterated in ascending key order; we model it as an
association list whose order is the iteration order), `frame_evictable_` is an
`std::unordered_map<frame_id_t, bool>`, `curr_size_` a `size_t` counter of
evictable frames.  Access queues hold at most `k_` timestamps, oldest first
(PushQueue pops the front when full). -/

namespace LRUK

/-- 2^64, the modulus of `size_t` arithmetic. -/
def size_t_mod : Nat := 2 ^ 64

/-- Lookup in an association list (models map `find`). -/
def alookup {β : Type} : List (Int × β) → Int → Option β
  | [], _ => none
  | p :: rest, f => if p.1 = f then some p.2 else alookup rest f

/-- Replacer state.  `accessRecords` is ordered by the `std::map` iteration
order; each entry is (frame id, access-timestamp queue, oldest first). -/
structure Replacer where
  k : Nat
  replacerSize : Nat
  accessRecords : List (Int × List Nat)
  frameEvictable : List (Int × Bool)
  currSize : Nat

/-- `LRUKReplacer::NotEvictable`: only frames recorded in `frame_evictable_`
with value `false` are not evictable. -/
def notEvictable (r : Replacer) (fid : Int) : Bool :=
  match alookup r.frameEvictable fid with
  | some b => !b
  | none => false

/-- `LRUKReplacer::SetEvictPair`: keep the candidate with the smallest front
timestamp; a pair whose frame id is the sentinel -1 is uninitialised. -/
def setEvictPair (p : Nat × Int) (fid : Int) (q : List Nat) : Nat × Int :=
  if p.2 = -1 then (q.headD 0, fid)
  else if q.headD 0 < p.1 then (q.headD 0, fid)
  else p

/-- The scanning loop of `LRUKReplacer::Evict`: fold over `access_records_`,
maintaining the `less_k_evict` (first component) and `k_evict` (second
component) candidate pairs. -/
def evictScan (r : Replacer) : (Nat × Int) × (Nat × Int) :=
  r.accessRecords.foldl
    (fun acc rec =>
      if notEvictable r rec.1 then acc
      else if rec.2.length = r.k then (acc.1, setEvictPair acc.2 rec.1 rec.2)
      else (setEvictPair acc.1 rec.1 rec.2, acc.2))
    ((0, -1), (0, -1))

/-- `LRUKReplacer::UnSafeRemove` on a frame that is present and evictable:
erase the frame from both maps and decrement `curr_size_` (size_t
arithmetic). -/
def unsafeRemove (r : Replacer) (fid : Int) : Replacer :=
  { r with
    accessRecords := r.accessRecords.filter (fun p => p.1 ≠ fid)
    frameEvictable := r.frameEvictable.filter (fun p => p.1 ≠ fid)
    currSize := (r.currSize + (size_t_mod - 1)) % size_t_mod }

/-- `LRUKReplacer::Evict`: returns the evicted frame id and the new state,
or `none` when no candidate was found. -/
def evict (r : Replacer) : Option (Int × Replacer) :=
  let s := evictScan r
  if s.1.2 = -1 ∧ s.2.2 = -1 then none
  else if s.1.2 ≠ -1 then some (s.1.2, unsafeRemove r s.1.2)
  else some (s.2.2, unsafeRemove r s.2.2)

/-- Well-formedness of a replacer state as established by `RecordAccess` /
`SetEvictable`: frame ids are valid (non-negative), access queues are
non-empty and hold at most `k` timestamps. -/
def WF (r : Replacer) : Prop :=
  ∀ p ∈ r.accessRecords, 0 ≤ p.1 ∧ p.2 ≠ [] ∧ p.2.length ≤ r.k

instance (r : Replacer) : Decidable (WF r) := by unfold WF; infer_instance

/-- The property claimed of `Evict` (claim C6): failure exactly when no
evictable frame exists; on success the chosen frame is an evictable recorded
frame with the largest backward k-distance — a frame with fewer than `k`
recorded accesses beats every fully-recorded frame, ties among the former are
broken by the earliest recorded timestamp, and among fully-recorded frames
the one whose k-th most recent access (the queue front) is oldest wins — and
the frame's history is removed entirely while the size counter is
decremented. -/
def EvictSpec (r : Replacer) : Prop :=
  match evict r with
  | none => ∀ p ∈ r.accessRecords, notEvictable r p.1 = true
  | some (f, r') =>
      (∃ e ∈ r.accessRecords, e.1 = f ∧ notEvictable r f = false ∧
        ((e.2.length < r.k ∧
            ∀ p ∈ r.accessRecords, notEvictable r p.1 = false →
              p.2.length < r.k → e.2.headD 0 ≤ p.2.headD 0) ∨
         (e.2.length = r.k ∧
            (∀ p ∈ r.accessRecords, notEvictable r p.1 = false →
              p.2.length = r.k) ∧
            ∀ p ∈ r.accessRecords, notEvictable r p.1 = false →
              e.2.headD 0 ≤ p.2.headD 0))) ∧
      r'.accessRecords = r.accessRecords.filter (fun p => p.1 ≠ f) ∧
      r'.frameEvictable = r.frameEvictable.filter (fun p => p.1 ≠ f) ∧
      r'.currSize = (r.currSize + (size_t_mod - 1)) % size_t_mod

instance (r : Replacer) : Decidable (EvictSpec r) :=
  match hs : evict r with
  | none => by unfold EvictSpec; rw [hs]; infer_instance
  | some (f, r') => by unfold EvictSpec; rw [hs]; infer_instance

/-- A sample well-formed replacer state (used as the witness input). -/
def sample : Replacer :=
  { k := 2, replacerSize := 8,
    accessRecords := [(0, [1, 5]), (2, [3]), (3, [2, 4]), (5, [6])],
    frameEvictable := [(0, true), (2, false), (3, true)], currSize := 3 }

end LRUK

/-! ## Theorems about the LRU-K replacer -/

namespace LRUK

/-- Category of an access-record entry: `b = true` selects entries whose
queue holds exactly `k` timestamps (the code's `size() == k_` branch),
`b = false` the others. -/
def catOf (r : Replacer) (b : Bool) (p : Int × List Nat) : Prop :=
  match b with
  | true => p.2.length = r.k
  | false => p.2.length ≠ r.k

/-- Invariant of one candidate pair during the `Evict` scan: either still the
sentinel with no eligible entry seen, or it records an eligible seen entry of
its category with the minimal front timestamp. -/
def PairInv (r : Replacer) (b : Bool) (seen : List (Int × List Nat))
    (pr : Nat × Int) : Prop :=
  (pr.2 = -1 ∧ ∀ p ∈ seen, notEvictable r p.1 = false → catOf r b p → False) ∨
  (∃ e ∈ seen, notEvictable r e.1 = false ∧ catOf r b e ∧ pr.2 = e.1 ∧
    pr.1 = e.2.headD 0 ∧
    ∀ p ∈ seen, notEvictable r p.1 = false → catOf r b p →
      pr.1 ≤ p.2.headD 0)

lemma pairInv_extend_skip (r : Replacer) (b : Bool)
    (seen : List (Int × List Nat)) (pr : Nat × Int) (rec : Int × List Nat)
    (h : PairInv r b seen pr)
    (hcase : notEvictable r rec.1 = true ∨ ¬ catOf r b rec) :
    PairInv r b (seen ++ [rec]) pr := by
  have hvac : ∀ p ∈ [rec], notEvictable r p.1 = false → catOf r b p → False := by
    intro p hp hev hcat
    rcases List.mem_singleton.mp hp with rfl
    rcases hcase with hc | hc
    · rw [hc] at hev; exact Bool.true_eq_false.mp hev
    · exact hc hcat
  rcases h with ⟨hs, hall⟩ | ⟨e, he, hev, hcat, h2, h1, hmin⟩
  · refine Or.inl ⟨hs, ?_⟩
    intro p hp hev hcat
    rcases List.mem_append.mp hp with hp | hp
    · exact hall p hp hev hcat
    · exact hvac p hp hev hcat
  · refine Or.inr ⟨e, List.mem_append.mpr (Or.inl he), hev, hcat, h2, h1, ?_⟩
    intro p hp hev' hcat'
    rcases List.mem_append.mp hp with hp | hp
    · exact hmin p hp hev' hcat'
    · exact absurd hcat' (fun hc => hvac p hp hev' hc)

lemma pairInv_extend_hit (r : Replacer) (b : Bool)
    (seen : List (Int × List Nat)) (pr : Nat × Int) (rec : Int × List Nat)
    (hseen : ∀ p ∈ seen, 0 ≤ p.1)
    (h : PairInv r b seen pr)
    (hev : notEvictable r rec.1 = false) (hcat : catOf r b rec) :
    PairInv r b (seen ++ [rec]) (setEvictPair pr rec.1 rec.2) := by
  unfold setEvictPair
  by_cases hs : pr.2 = -1
  · simp only [hs, if_pos]
    rcases h with ⟨_, hall⟩ | ⟨e, he, _, _, h2, _, _⟩
    · refine Or.inr ⟨rec, List.mem_append.mpr (Or.inr (List.mem_singleton.mpr rfl)),
        hev, hcat, rfl, rfl, ?_⟩
      intro p hp hev' hcat'
      rcases List.mem_append.mp hp with hp | hp
      · exact absurd hcat' (fun hc => hall p hp hev' hc)
      · rcases List.mem_singleton.mp hp with rfl; exact le_refl _
    · exfalso
      have h0 := hseen e he
      rw [hs] at h2
      omega
  · simp only [hs, if_neg, if_false]
    rcases h with ⟨h2, _⟩ | ⟨e, he, heev, hecat, h2, h1, hmin⟩
    · exact absurd h2 hs
    by_cases hlt : rec.2.headD 0 < pr.1
    · simp only [hlt, if_pos]
      refine Or.inr ⟨rec, List.mem_append.mpr (Or.inr (List.mem_singleton.mpr rfl)),
        hev, hcat, rfl, rfl, ?_⟩
      intro p hp hev' hcat'
      rcases List.mem_append.mp hp with hp | hp
      · exact le_trans (le_of_lt hlt) (hmin p hp hev' hcat')
      · rcases List.mem_singleton.mp hp with rfl; exact le_refl _
    · simp only [hlt, if_neg, if_false]
      refine Or.inr ⟨e, List.mem_append.mpr (Or.inl he), heev, hecat, h2, h1, ?_⟩
      intro p hp hev' hcat'
      rcases List.mem_append.mp hp with hp | hp
      · exact hmin p hp hev' hcat'
      · rcases List.mem_singleton.mp hp with rfl
        exact le_of_not_lt hlt

/-- The step function of the `Evict` scanning fold. -/
def scanStep (r : Replacer) (acc : (Nat × Int) × (Nat × Int))
    (rec : Int × List Nat) : (Nat × Int) × (Nat × Int) :=
  if notEvictable r rec.1 then acc
  else if rec.2.length = r.k then (acc.1, setEvictPair acc.2 rec.1 rec.2)
  else (setEvictPair acc.1 rec.1 rec.2, acc.2)

lemma evictScan_eq_fold (r : Replacer) :
    evictScan r = r.accessRecords.foldl (scanStep r) ((0, -1), (0, -1)) := rfl

lemma scan_fold_inv (r : Replacer) :
    ∀ (l seen : List (Int × List Nat)) (acc : (Nat × Int) × (Nat × Int)),
    (∀ p ∈ seen, 0 ≤ p.1) → (∀ p ∈ l, 0 ≤ p.1) →
    PairInv r false seen acc.1 → PairInv r true seen acc.2 →
    PairInv r false (seen ++ l) (l.foldl (scanStep r) acc).1 ∧
    PairInv r true (seen ++ l) (l.foldl (scanStep r) acc).2 := by
  intro l
  induction l with
  | nil => intro seen acc _ _ h1 h2; simpa using ⟨h1, h2⟩
  | cons rec rest ih =>
    intro seen acc hseen hl h1 h2
    have hrec : (0 : Int) ≤ rec.1 := hl rec (List.mem_cons_self rec rest)
    have hstep :
        PairInv r false (seen ++ [rec]) (scanStep r acc rec).1 ∧
        PairInv r true (seen ++ [rec]) (scanStep r acc rec).2 := by
      unfold scanStep
      by_cases hne : notEvictable r rec.1
      · simp only [hne, if_pos]
        exact ⟨pairInv_extend_skip r false seen acc.1 rec h1 (Or.inl hne),
               pairInv_extend_skip r true seen acc.2 rec h2 (Or.inl hne)⟩
      · have hne' : notEvictable r rec.1 = false := by
          simpa using hne
        simp only [hne, if_false, Bool.false_eq_true]
        by_cases hk : rec.2.length = r.k
        · simp only [hk, if_pos]
          refine ⟨pairInv_extend_skip r false seen acc.1 rec h1 (Or.inr ?_),
                  pairInv_extend_hit r true seen acc.2 rec hseen h2 hne' hk⟩
          simp [catOf, hk]
        · simp only [hk, if_false]
          refine ⟨pairInv_extend_hit r false seen acc.1 rec hseen h1 hne' hk,
                  pairInv_extend_skip r true seen acc.2 rec h2 (Or.inr ?_)⟩
          simp [catOf, hk]
    have hseen' : ∀ p ∈ seen ++ [rec], 0 ≤ p.1 := by
      intro p hp
      rcases List.mem_append.mp hp with hp | hp
      · exact hseen p hp
      · rcases List.mem_singleton.mp hp with rfl; exact hrec
    have hl' : ∀ p ∈ rest, 0 ≤ p.1 := fun p hp => hl p (List.mem_cons_of_mem rec hp)
    have := ih (seen ++ [rec]) (scanStep r acc rec) hseen' hl' hstep.1 hstep.2
    simpa [List.append_assoc] using this

/-- Claim C6: `Evict` returns nothing when no evictable frame exists;
otherwise it returns the evictable frame with the largest backward
k-distance (fewer than K accesses counts as +infinity; ties among those are
broken by the earliest recorded timestamp; among K-access frames the oldest
K-th most recent access wins), removes that frame's access history entirely
and decrements the size counter. -/
theorem c6_evict_lruk (r : Replacer) (hwf : WF r) : EvictSpec r := by
  have hids : ∀ p ∈ r.accessRecords, (0 : Int) ≤ p.1 := fun p hp => (hwf p hp).1
  have hinit1 : PairInv r false [] ((0 : Nat), (-1 : Int)) := Or.inl ⟨rfl, by simp⟩
  have hinit2 : PairInv r true [] ((0 : Nat), (-1 : Int)) := Or.inl ⟨rfl, by simp⟩
  have hinv := scan_fold_inv r r.accessRecords []
    (((0 : Nat), (-1 : Int)), ((0 : Nat), (-1 : Int)))
    (by intro p hp; cases hp) hids hinit1 hinit2
  rw [← evictScan_eq_fold] at hinv
  simp only [List.nil_append] at hinv
  rcases hinv with ⟨hL, hK⟩
  by_cases hnone : (evictScan r).1.2 = -1 ∧ (evictScan r).2.2 = -1
  · have hs : evict r = none := by
      unfold evict
      simp only [hnone, and_self, if_pos]
    unfold EvictSpec
    rw [hs]
    rcases hL with ⟨_, hallL⟩ | ⟨e, he, _, _, h2, _, _⟩
    · rcases hK with ⟨_, hallK⟩ | ⟨e, he, _, _, h2, _, _⟩
      · intro p hp
        by_contra hne
        have hev : notEvictable r p.1 = false := by
          cases hh : notEvictable r p.1
          · rfl
          · exact absurd hh hne
        by_cases hk : p.2.length = r.k
        · exact hallK p hp hev hk
        · exact hallL p hp hev hk
      · exfalso; have h0 := hids e he; rw [hnone.2] at h2; omega
    · exfalso; have h0 := hids e he; rw [hnone.1] at h2; omega
  · by_cases hless : (evictScan r).1.2 = -1
    · -- the k-distance candidate is chosen
      have hkne : ¬ (evictScan r).2.2 = -1 := fun hh => hnone ⟨hless, hh⟩
      have hs : evict r = some ((evictScan r).2.2, unsafeRemove r (evictScan r).2.2) := by
        unfold evict
        simp only [hnone, if_false, hless, ne_eq, not_true_eq_false, if_false]
        exact if_neg (by simp [hkne])
      unfold EvictSpec
      rw [hs]
      rcases hK with ⟨h2, _⟩ | ⟨e, he, hev, hcat, h2, h1, hmin⟩
      · exact absurd h2 hkne
      have hnoL : ∀ p ∈ r.accessRecords, notEvictable r p.1 = false →
          p.2.length = r.k := by
        rcases hL with ⟨_, hallL⟩ | ⟨e', he', _, _, h2', _, _⟩
        · intro p hp hev'
          by_contra hk
          exact hallL p hp hev' hk
        · exfalso; have h0 := hids e' he'; rw [hless] at h2'; omega
      refine ⟨⟨e, he, h2.symm, h2 ▸ hev, Or.inr ⟨hcat, hnoL, ?_⟩⟩, rfl, rfl, rfl⟩
      intro p hp hev'
      exact h1 ▸ hmin p hp hev' (hnoL p hp hev')
    · -- the infinite-distance candidate is chosen
      have hs : evict r = some ((evictScan r).1.2, unsafeRemove r (evictScan r).1.2) := by
        unfold evict
        simp only [hnone, if_false, hless, ne_eq, not_false_eq_true, if_true]
        exact if_neg (by simp)
      unfold EvictSpec
      rw [hs]
      rcases hL with ⟨h2, _⟩ | ⟨e, he, hev, hcat, h2, h1, hmin⟩
      · exact absurd h2 hless
      refine ⟨⟨e, he, h2.symm, h2 ▸ hev, Or.inl ⟨?_, ?_⟩⟩, rfl, rfl, rfl⟩
      · have hle := (hwf e he).2.2
        have hne : e.2.length ≠ r.k := hcat
        omega
      · intro p hp hev' hlen
        have hcatp : catOf r false p := by
          intro hh; omega
        exact h1 ▸ hmin p hp hev' hcatp

/-- Witness for C6 at a concrete well-formed replacer state. -/
theorem c6_evict_lruk_witness : WF sample ∧ EvictSpec sample :=
  ⟨by decide, c6_evict_lruk sample (by decide)⟩

end LRUK

/-! # Section 2: buffer pool flush
(src/buffer/buffer_pool_manager_instance.cpp, UnsafeFlushPgImp)

`UnsafeFlushPgImp` asserts the page id is valid, looks the page up in the
page table, and on a resident page executes, in program order:
`page->is_dirty_ = false;` and then `disk_manager_->WritePage(...)`.
We record that order as a trace of actions and obtain the new state by
applying the trace. -/

namespace BufferPool

/-- Observable actions of the flush helper, in program order. -/
inductive IOAction where
  | clearDirty (pageId : Int)
  | writePage (pageId : Int)
deriving DecidableEq, Repr

/-- A resident page's metadata (frame contents). -/
structure Page where
  pageId : Int
  isDirty : Bool
deriving DecidableEq, Repr

/-- Buffer pool state: the page table (page id to frame index) and the frame
array. -/
structure BPM where
  pageTable : List (Int × Nat)
  pages : List Page
deriving DecidableEq, Repr

/-- The dirty flag of the page resident for `pid`, if resident. -/
def getDirty (m : BPM) (pid : Int) : Option Bool :=
  match LRUK.alookup m.pageTable pid with
  | none => none
  | some f => (m.pages.get? f).map Page.isDirty

/-- Effect of one action on the cached state (a disk write does not change
the cached frame). -/
def applyAction (m : BPM) : IOAction → BPM
  | IOAction.clearDirty pid =>
      match LRUK.alookup m.pageTable pid with
      | none => m
      | some f =>
          match m.pages.get? f with
          | none => m
          | some pg => { m with pages := m.pages.set f { pg with isDirty := false } }
  | IOAction.writePage _ => m

/-- `BufferPoolManagerInstance::UnsafeFlushPgImp`: `none` models the
`BUSTUB_ASSERT` abort on the invalid page id; otherwise the returned Bool is
the C++ return value and the list is the trace of the actions the code
performs on a resident page, in program order. -/
def unsafeFlushActs (m : BPM) (pid : Int) : Option (Bool × List IOAction) :=
  if pid = -1 then none
  else
    match LRUK.alookup m.pageTable pid with
    | none => some (false, [])
    | some _ => some (true, [IOAction.clearDirty pid, IOAction.writePage pid])

/-- `UnsafeFlushPgImp` including its effect on the cached state. -/
def unsafeFlush (m : BPM) (pid : Int) : Option (Bool × BPM) :=
  (unsafeFlushActs m pid).map (fun r => (r.1, r.2.foldl applyAction m))

/-- A one-page buffer pool whose resident page 1 is dirty (the failing
input for claim C3). -/
def sampleBPM : BPM :=
  { pageTable := [(1, 0)], pages := [{ pageId := 1, isDirty := true }] }

end BufferPool

/-! ## Theorems about the buffer pool flush -/

namespace BufferPool

/-- Claim C3 (refuted): on a resident dirty page, the flush helper emits the
dirty-flag clear strictly before the disk write, so a write that does not
complete leaves the flag already cleared.  Concretely: the trace is
`[clearDirty, writePage]`, a write-then-clear trace is not a subsequence of
it, the page was dirty before, and after only the first action (no write
performed yet) the dirty flag is already false. -/
theorem c3_flush_clear_precedes_write :
    unsafeFlushActs sampleBPM 1 =
      some (true, [IOAction.clearDirty 1, IOAction.writePage 1]) ∧
    ¬ List.Sublist [IOAction.writePage 1, IOAction.clearDirty 1]
        [IOAction.clearDirty 1, IOAction.writePage 1] ∧
    getDirty sampleBPM 1 = some true ∧
    getDirty (applyAction sampleBPM (IOAction.clearDirty 1)) 1 = some false := by
  refine ⟨rfl, ?_, rfl, rfl⟩
  decide

end BufferPool

/-! # Section 3: lock manager (src/concurrency/lock_manager.cpp)

Locking modes, isolation levels, transaction states and abort reasons,
the compatibility matrix, the pre-wait validation (`LockIllegalCheck`),
the per-queue grant algorithm, and the deadlock detector. -/

namespace LockMgr

/-- `LockManager::LockMode`. -/
inductive LockMode where
  | SHARED
  | EXCLUSIVE
  | INTENTION_SHARED
  | INTENTION_EXCLUSIVE
  | SHARED_INTENTION_EXCLUSIVE
deriving DecidableEq, Repr

/-- `IsolationLevel`. -/
inductive IsolationLevel where
  | READ_UNCOMMITTED
  | READ_COMMITTED
  | REPEATABLE_READ
deriving DecidableEq, Repr

/-- `TransactionState`. -/
inductive TransactionState where
  | GROWING
  | SHRINKING
  | COMMITTED
  | ABORTED
deriving DecidableEq, Repr

/-- `AbortReason`. -/
inductive AbortReason where
  | LOCK_ON_SHRINKING
  | LOCK_SHARED_ON_READ_UNCOMMITTED
  | ATTEMPTED_INTENTION_LOCK_ON_ROW
  | TABLE_LOCK_NOT_PRESENT
  | INCOMPATIBLE_UPGRADE
  | UPGRADE_CONFLICT
  | ATTEMPTED_UNLOCK_BUT_NO_LOCK_HELD
  | TABLE_UNLOCKED_BEFORE_UNLOCKING_ROWS
deriving DecidableEq, Repr

/-- `LockManager::LockRange`. -/
inductive LockRange where
  | TABLE
  | ROW
deriving DecidableEq, Repr

/-- The per-transaction bookkeeping relevant to `LockIllegalCheck`: state,
isolation level, and the five table-lock sets. -/
structure Txn where
  state : TransactionState
  isolation : IsolationLevel
  sharedTables : List Nat
  exclusiveTables : List Nat
  intentionSharedTables : List Nat
  intentionExclusiveTables : List Nat
  sharedIntentionExclusiveTables : List Nat
deriving DecidableEq, Repr

/-- `x_holds` of `LockIllegalCheck`: the transaction holds X, IX or SIX on
the table. -/
def XClassHeld (txn : Txn) (oid : Nat) : Prop :=
  oid ∈ txn.exclusiveTables ∨ oid ∈ txn.intentionExclusiveTables ∨
    oid ∈ txn.sharedIntentionExclusiveTables

/-- `s_holds` of `LockIllegalCheck`: the transaction holds S or IS on the
table. -/
def SClassHeld (txn : Txn) (oid : Nat) : Prop :=
  oid ∈ txn.sharedTables ∨ oid ∈ txn.intentionSharedTables

instance (txn : Txn) (oid : Nat) : Decidable (XClassHeld txn oid) := by
  unfold XClassHeld; infer_instance

instance (txn : Txn) (oid : Nat) : Decidable (SClassHeld txn oid) := by
  unfold SClassHeld; infer_instance

/-- `LockManager::LockIllegalCheck`, as the first abort reason raised (or
`none`), following the code's check order: (1) READ_UNCOMMITTED forbids
S/IS/SIX; (2) a row lock must be S or X; (3) in SHRINKING state everything
is forbidden under REPEATABLE_READ, and X/IX/SIX under the other levels;
(4) a row lock requires the matching table lock. -/
def lockIllegalCheck (txn : Txn) (mode : LockMode) (oid : Nat)
    (range : LockRange) : Option AbortReason :=
  if txn.isolation = IsolationLevel.READ_UNCOMMITTED ∧
      (mode = LockMode.SHARED ∨ mode = LockMode.INTENTION_SHARED ∨
        mode = LockMode.SHARED_INTENTION_EXCLUSIVE) then
    some AbortReason.LOCK_SHARED_ON_READ_UNCOMMITTED
  else if range = LockRange.ROW ∧
      ¬(mode = LockMode.EXCLUSIVE ∨ mode = LockMode.SHARED) then
    some AbortReason.ATTEMPTED_INTENTION_LOCK_ON_ROW
  else if txn.state = TransactionState.SHRINKING ∧
      txn.isolation = IsolationLevel.REPEATABLE_READ then
    some AbortReason.LOCK_ON_SHRINKING
  else if txn.state = TransactionState.SHRINKING ∧
      (mode = LockMode.EXCLUSIVE ∨ mode = LockMode.INTENTION_EXCLUSIVE ∨
        mode = LockMode.SHARED_INTENTION_EXCLUSIVE) then
    some AbortReason.LOCK_ON_SHRINKING
  else if range = LockRange.ROW ∧ ¬ XClassHeld txn oid ∧
      mode = LockMode.EXCLUSIVE then
    some AbortReason.TABLE_LOCK_NOT_PRESENT
  else if range = LockRange.ROW ∧ ¬(XClassHeld txn oid ∨ SClassHeld txn oid) ∧
      mode = LockMode.SHARED then
    some AbortReason.TABLE_LOCK_NOT_PRESENT
  else
    none

/-- `LockIllegalCheck` together with `AbortAndThrowException`: on failure the
transaction state is set to ABORTED before the exception is raised. -/
def lockIllegalCheckRun (txn : Txn) (mode : LockMode) (oid : Nat)
    (range : LockRange) : Txn × Option AbortReason :=
  match lockIllegalCheck txn mode oid range with
  | some r => ({ txn with state := TransactionState.ABORTED }, some r)
  | none => (txn, none)

/-- Condition of the claim: READ_UNCOMMITTED with a shared-class mode. -/
def CondRU (txn : Txn) (mode : LockMode) : Prop :=
  txn.isolation = IsolationLevel.READ_UNCOMMITTED ∧
    (mode = LockMode.SHARED ∨ mode = LockMode.INTENTION_SHARED ∨
      mode = LockMode.SHARED_INTENTION_EXCLUSIVE)

/-- Condition of the claim: a row lock request with an intention mode. -/
def CondRowIntention (mode : LockMode) (range : LockRange) : Prop :=
  range = LockRange.ROW ∧ ¬(mode = LockMode.SHARED ∨ mode = LockMode.EXCLUSIVE)

/-- Condition of the claim: a request in SHRINKING state that the 2PL rules
forbid (anything under REPEATABLE_READ; X, IX or SIX otherwise). -/
def CondShrink (txn : Txn) (mode : LockMode) : Prop :=
  txn.state = TransactionState.SHRINKING ∧
    (txn.isolation = IsolationLevel.REPEATABLE_READ ∨
      mode = LockMode.EXCLUSIVE ∨ mode = LockMode.INTENTION_EXCLUSIVE ∨
      mode = LockMode.SHARED_INTENTION_EXCLUSIVE)

/-- Condition of the claim: a row lock without the required table lock. -/
def CondTableMissing (txn : Txn) (mode : LockMode) (oid : Nat)
    (range : LockRange) : Prop :=
  range = LockRange.ROW ∧
    ((mode = LockMode.EXCLUSIVE ∧ ¬ XClassHeld txn oid) ∨
     (mode = LockMode.SHARED ∧ ¬(XClassHeld txn oid ∨ SClassHeld txn oid)))

/-- Claim C5's reading of the validation rules: each listed condition raises
exactly its listed reason (a biconditional per reason). -/
def C5Claim : Prop :=
  ∀ (txn : Txn) (mode : LockMode) (oid : Nat) (range : LockRange),
    (lockIllegalCheck txn mode oid range = some AbortReason.LOCK_ON_SHRINKING ↔
      CondShrink txn mode) ∧
    (lockIllegalCheck txn mode oid range =
        some AbortReason.LOCK_SHARED_ON_READ_UNCOMMITTED ↔ CondRU txn mode) ∧
    (lockIllegalCheck txn mode oid range =
        some AbortReason.ATTEMPTED_INTENTION_LOCK_ON_ROW ↔
      CondRowIntention mode range) ∧
    (lockIllegalCheck txn mode oid range =
        some AbortReason.TABLE_LOCK_NOT_PRESENT ↔
      CondTableMissing txn mode oid range)

/-- A transaction in SHRINKING state under READ_UNCOMMITTED holding no table
locks (the counterexample input for C5). -/
def txnShrinkRU : Txn :=
  { state := TransactionState.SHRINKING,
    isolation := IsolationLevel.READ_UNCOMMITTED,
    sharedTables := [], exclusiveTables := [], intentionSharedTables := [],
    intentionExclusiveTables := [], sharedIntentionExclusiveTables := [] }

end LockMgr


/-! ## Theorems about the lock-acquisition validation (C5) -/

namespace LockMgr

instance (txn : Txn) (mode : LockMode) : Decidable (CondRU txn mode) := by
  unfold CondRU; infer_instance

instance (mode : LockMode) (range : LockRange) :
    Decidable (CondRowIntention mode range) := by
  unfold CondRowIntention; infer_instance

instance (txn : Txn) (mode : LockMode) : Decidable (CondShrink txn mode) := by
  unfold CondShrink; infer_instance

instance (txn : Txn) (mode : LockMode) (oid : Nat) (range : LockRange) :
    Decidable (CondTableMissing txn mode oid range) := by
  unfold CondTableMissing; infer_instance

/-- Claim C5 as stated is false: a SHRINKING transaction under
READ_UNCOMMITTED requesting SIX on a table satisfies the claim's
LockOnShrinking condition, but the code checks the READ_UNCOMMITTED rule
first and raises LockSharedOnReadUncommitted instead. -/
theorem c5_counterexample : ¬ C5Claim := by
  intro h
  have h1 := (h txnShrinkRU LockMode.SHARED_INTENTION_EXCLUSIVE 0 LockRange.TABLE).1
  have h2 : lockIllegalCheck txnShrinkRU LockMode.SHARED_INTENTION_EXCLUSIVE 0
      LockRange.TABLE = some AbortReason.LOCK_ON_SHRINKING :=
    h1.mpr (by decide)
  exact absurd h2 (by decide)

set_option maxHeartbeats 1000000 in
theorem c5_lock_illegal_check_amended (txn : Txn) (mode : LockMode) (oid : Nat)
    (range : LockRange) :
    lockIllegalCheckRun txn mode oid range =
      ((if (lockIllegalCheck txn mode oid range).isSome then
          { txn with state := TransactionState.ABORTED } else txn),
        lockIllegalCheck txn mode oid range) ∧
    (lockIllegalCheck txn mode oid range =
        some AbortReason.LOCK_SHARED_ON_READ_UNCOMMITTED ↔ CondRU txn mode) ∧
    (lockIllegalCheck txn mode oid range =
        some AbortReason.ATTEMPTED_INTENTION_LOCK_ON_ROW ↔
      ¬ CondRU txn mode ∧ CondRowIntention mode range) ∧
    (lockIllegalCheck txn mode oid range = some AbortReason.LOCK_ON_SHRINKING ↔
      ¬ CondRU txn mode ∧ ¬ CondRowIntention mode range ∧
        CondShrink txn mode) ∧
    (lockIllegalCheck txn mode oid range =
        some AbortReason.TABLE_LOCK_NOT_PRESENT ↔
      ¬ CondRU txn mode ∧ ¬ CondRowIntention mode range ∧
        ¬ CondShrink txn mode ∧ CondTableMissing txn mode oid range) ∧
    (lockIllegalCheck txn mode oid range = none ↔
      ¬ CondRU txn mode ∧ ¬ CondRowIntention mode range ∧
        ¬ CondShrink txn mode ∧ ¬ CondTableMissing txn mode oid range) := by
  constructor
  · unfold lockIllegalCheckRun
    cases hres : lockIllegalCheck txn mode oid range <;> simp [hres]
  rcases txn with ⟨st, iso, a1, a2, a3, a4, a5⟩
  by_cases hx : (oid ∈ a2 ∨ oid ∈ a4 ∨ oid ∈ a5) <;>
    by_cases hs2 : (oid ∈ a1 ∨ oid ∈ a3) <;>
    cases st <;> cases iso <;> cases mode <;> cases range <;>
    simp [lockIllegalCheck, CondRU, CondRowIntention, CondShrink,
      CondTableMissing, XClassHeld, SClassHeld, hx, hs2]

end LockMgr

/-! ## Deadlock detector: wait-for graph, DFS, detection tick
(src/concurrency/lock_manager.cpp, AddEdge / GenerateWaitForGraph / DFS /
HasCycle / RunCycleDetection) -/

namespace LockMgr

/-- `ConflictChecker::coexistence_map`: the modes that may coexist with a
given mode. -/
def coexistSet : LockMode → List LockMode
  | LockMode.INTENTION_SHARED =>
      [LockMode.INTENTION_SHARED, LockMode.INTENTION_EXCLUSIVE,
        LockMode.SHARED, LockMode.SHARED_INTENTION_EXCLUSIVE]
  | LockMode.INTENTION_EXCLUSIVE =>
      [LockMode.INTENTION_SHARED, LockMode.INTENTION_EXCLUSIVE]
  | LockMode.SHARED => [LockMode.INTENTION_SHARED, LockMode.SHARED]
  | LockMode.SHARED_INTENTION_EXCLUSIVE => [LockMode.INTENTION_SHARED]
  | LockMode.EXCLUSIVE => []

/-- `ConflictChecker::CanCoexistence`. -/
def canCoexist (a b : LockMode) : Bool := (coexistSet a).contains b

/-- The wait-for graph `waits_for_`: an association list from a transaction
id to its adjacency vector. -/
def Graph : Type := List (Int × List Int)

/-- `waits_for_[t]` read-only: the adjacency vector of `t` (empty when
absent). -/
def adjOf (g : Graph) (t : Int) : List Int := (LRUK.alookup g t).getD []

/-- `LockManager::AddEdge`: append `t2` to `t1`'s adjacency vector unless
already present (creating the entry if needed). -/
def addEdge : Graph → Int → Int → Graph
  | [], t1, t2 => [(t1, [t2])]
  | p :: rest, t1, t2 =>
      if p.1 = t1 then
        (if t2 ∈ p.2 then p else (p.1, p.2 ++ [t2])) :: rest
      else p :: addEdge rest t1 t2

/-- `LockManager::GetNodeList`: every endpoint of an edge, deduplicated (the
C++ collects them in an `unordered_set`; `HasCycle` sorts the result, so only
the set of nodes matters). -/
def getNodeList (g : Graph) : List Int :=
  (g.foldr (fun p acc => if p.2.isEmpty then acc else p.1 :: (p.2 ++ acc)) []).dedup

/-- Sorting by txn id ascending (`std::sort`). -/
def sortInts (l : List Int) : List Int := l.insertionSort (fun a b => a ≤ b)

/-- `LockManager::FindMAXVal`: maximum of the set, `INVALID_TXN_ID = -1`
when empty. -/
def findMAXVal (s : List Int) : Int := s.foldl max (-1)

/-- The loop over the (sorted) adjacency list inside `LockManager::DFS`,
parameterised by the recursive DFS call (`dfsF`, the DFS at the remaining
recursion depth).  On finding an adjacent node already on the path the victim
`FindMAXVal(node_path)` is returned; a cycle-free exit erases `start` from
the node path. -/
def dfsLoop (dfsF : Int → List Int → List Int → List Int × List Int × Option Int) :
    List Int → Int → List Int → List Int → List Int × List Int × Option Int
  | [], start, path, visited => (path.erase start, visited, none)
  | a :: rest, start, path, visited =>
      if a ∈ path then (path, visited, some (findMAXVal path))
      else if a ∈ visited then dfsLoop dfsF rest start path visited
      else
        match dfsF a path visited with
        | (p2, v2, some v) => (p2, v2, some v)
        | (p2, v2, none) => dfsLoop dfsF rest start p2 v2

/-- `LockManager::DFS`.  `path` is `node_path` (most recent first), `visited`
is `visited_set`; both are inserted into at entry.  `fuel` bounds the
recursion depth (the C++ recursion terminates because `visited` grows;
`hasCycle` passes enough fuel). -/
def dfs (g : Graph) : Nat → Int → List Int → List Int →
    List Int × List Int × Option Int
  | 0 => fun _ path visited => (path, visited, none)
  | fuel + 1 => fun start path visited =>
      dfsLoop (dfs g fuel) (sortInts (adjOf g start)) start
        (if start ∈ path then path else start :: path)
        (if start ∈ visited then visited else start :: visited)

/-- The loop over the sorted node list inside `LockManager::HasCycle`
(`node_path` and `visited_set` persist across iterations). -/
def hcLoop (g : Graph) (fuel : Nat) (nodes : List Int)
    (path visited : List Int) : Option Int :=
  match nodes with
  | [] => none
  | n :: rest =>
      if n ∈ visited then hcLoop g fuel rest path visited
      else
        match dfs g fuel n path visited with
        | (_, _, some v) => some v
        | (p2, v2, none) => hcLoop g fuel rest p2 v2

/-- `LockManager::HasCycle`: nodes sorted ascending, adjacency vectors sorted
ascending (inside `dfs`), DFS from each unvisited node; `some v` is the
victim written to the out-parameter. -/
def hasCycle (g : Graph) : Option Int :=
  let nodes := sortInts (getNodeList g)
  hcLoop g (nodes.length + 1) nodes [] []

/-- A lock request as stored in a `LockRequestQueue`. -/
structure Request where
  txnId : Int
  mode : LockMode
  granted : Bool
deriving DecidableEq, Repr

/-- `LockManager::ConstructGraphByOneQueue`: walk the queue; granted requests
accumulate; each ungranted request gets an edge to every earlier granted
request whose mode is incompatible with it. -/
def constructGraphByOneQueue (g : Graph) (q : List Request) : Graph :=
  (q.foldl
    (fun acc req =>
      if req.granted then (acc.1, acc.2 ++ [req])
      else
        (acc.2.foldl
          (fun gg gr =>
            if canCoexist gr.mode req.mode then gg
            else addEdge gg req.txnId gr.txnId) acc.1,
         acc.2))
    (g, ([] : List Request))).1

/-- `LockManager::GenerateWaitForGraph`: clear the graph and build it from
every lock-request queue (table queues and row queues alike). -/
def generateWaitForGraph (qs : List (List Request)) : Graph :=
  qs.foldl constructGraphByOneQueue []

/-- One iteration of `LockManager::RunCycleDetection`'s loop body: rebuild
the wait-for graph; if `HasCycle` finds a victim, set its state to ABORTED
(not part of the queue state) and remove all its requests from every queue
(`RemoveLockRequestOf`).  Note the single `if`: at most one victim is
selected per tick. -/
def runCycleDetectionTick (qs : List (List Request)) :
    List (List Request) × Option Int :=
  match hasCycle (generateWaitForGraph qs) with
  | none => (qs, none)
  | some v => (qs.map (fun q => q.filter (fun r => r.txnId ≠ v)), some v)

/-- `b` is a direct successor of `a` in the wait-for graph. -/
def edgeIn (g : Graph) (a b : Int) : Prop := b ∈ adjOf g a

instance (g : Graph) (a b : Int) : Decidable (edgeIn g a b) := by
  unfold edgeIn; infer_instance

/-- A walk along graph edges from `a` through the nodes of `l` to `b`. -/
def walkFrom (g : Graph) : Int → List Int → Int → Prop
  | a, [], b => edgeIn g a b
  | a, c :: rest, b => edgeIn g a c ∧ walkFrom g c rest b

instance walkFromDec (g : Graph) :
    (a : Int) → (l : List Int) → (b : Int) → Decidable (walkFrom g a l b)
  | a, [], b => (inferInstance : Decidable (edgeIn g a b))
  | a, c :: rest, b =>
      @instDecidableAnd _ _ (inferInstance : Decidable (edgeIn g a c))
        (walkFromDec g c rest b)

/-- A graph with no closed walk. -/
def Acyclic (g : Graph) : Prop := ∀ t l, ¬ walkFrom g t l t

/-- Claim C1's reading: whenever the detector finds a victim, the victim lies
on a cycle of the graph and is the highest txn id among that cycle's
members. -/
def C1Claim : Prop :=
  ∀ (g : Graph) (v : Int), hasCycle g = some v →
    ∃ l, walkFrom g v l v ∧ ∀ t ∈ l, t ≤ v

/-- Claim C7's reading: after one detector tick the wait-for graph rebuilt
from the remaining queued requests is acyclic. -/
def C7Claim : Prop :=
  ∀ qs, Acyclic (generateWaitForGraph (runCycleDetectionTick qs).1)

/-- A wait-for graph with a tail into a two-cycle: 1 waits for 5, 5 waits
for 2, and 2 and 3 wait for each other (counterexample input for C1). -/
def gEx : Graph := [(1, [5]), (5, [2]), (2, [3]), (3, [2])]

/-- Four single-resource queues producing two disjoint two-cycles
1<->2 and 3<->4 (counterexample input for C7). -/
def qsEx : List (List Request) :=
  [[⟨2, LockMode.EXCLUSIVE, true⟩, ⟨1, LockMode.EXCLUSIVE, false⟩],
   [⟨1, LockMode.EXCLUSIVE, true⟩, ⟨2, LockMode.EXCLUSIVE, false⟩],
   [⟨4, LockMode.EXCLUSIVE, true⟩, ⟨3, LockMode.EXCLUSIVE, false⟩],
   [⟨3, LockMode.EXCLUSIVE, true⟩, ⟨4, LockMode.EXCLUSIVE, false⟩]]

end LockMgr

/-! ## Theorems about the deadlock detector (C1, C7) -/

namespace LockMgr

/-- `node_path` as maintained by the DFS (most recent node first): each node
has an edge from the node pushed after it to it.  In other words, for
consecutive entries x, y the graph has the edge y -> x. -/
def PathChain (g : Graph) (l : List Int) : Prop :=
  List.Chain' (fun x y => edgeIn g y x) l

lemma walk_append_edge (g : Graph) :
    ∀ (l : List Int) (a b c : Int), walkFrom g a l b → edgeIn g b c →
      walkFrom g a (l ++ [b]) c := by
  intro l
  induction l with
  | nil => intro a b c h1 h2; exact ⟨h1, h2⟩
  | cons d rest ih =>
    intro a b c h1 h2
    exact ⟨h1.1, ih d b c h1.2 h2⟩

lemma descend_to_head (g : Graph) :
    ∀ (l : List Int) (a : Int), PathChain g l → a ∈ l →
      a = l.headD 0 ∨
        ∃ w, walkFrom g a w (l.headD 0) ∧ ∀ x ∈ w, x ∈ l := by
  intro l
  induction l with
  | nil => intro a _ ha; cases ha
  | cons h rest ih =>
    intro a hchain ha
    rcases List.mem_cons.mp ha with rfl | ha
    · exact Or.inl rfl
    · cases rest with
      | nil => cases ha
      | cons h2 rest' =>
        have hedge : edgeIn g h2 h := (List.chain'_cons.mp hchain).1
        have hchain' : PathChain g (h2 :: rest') := (List.chain'_cons.mp hchain).2
        rcases ih a hchain' ha with rfl | ⟨w, hw, hsub⟩
        · refine Or.inr ⟨[], ?_, by simp⟩
          simpa [walkFrom] using hedge
        · refine Or.inr ⟨w ++ [h2], ?_, ?_⟩
          · exact walk_append_edge g w a (List.headD (h2 :: rest') 0) h hw
              (by simpa using hedge)
          · intro x hx
            rcases List.mem_append.mp hx with hx | hx
            · exact List.mem_cons_of_mem h (hsub x hx)
            · rcases List.mem_singleton.mp hx with rfl
              exact List.mem_cons_of_mem h (List.mem_cons_self _ _)

lemma cycle_from_detection (g : Graph) (pth : List Int) (a : Int)
    (hchain : PathChain g pth) (ha : a ∈ pth)
    (hedge : edgeIn g (pth.headD 0) a) :
    ∃ t l, t ∈ pth ∧ walkFrom g t l t ∧ ∀ x ∈ l, x ∈ pth := by
  have hne : pth ≠ [] := by intro hh; rw [hh] at ha; cases ha
  have hhead : pth.headD 0 ∈ pth := by
    cases pth with
    | nil => exact absurd rfl hne
    | cons h rest => exact List.mem_cons_self _ _
  rcases descend_to_head g pth a hchain ha with heq | ⟨w, hw, hsub⟩
  · refine ⟨a, [], ha, ?_, by simp⟩
    show edgeIn g a a
    rw [heq] at hedge ⊢
    exact hedge
  · refine ⟨a, w ++ [pth.headD 0], ha,
      walk_append_edge g w a (pth.headD 0) a hw hedge, ?_⟩
    intro x hx
    rcases List.mem_append.mp hx with hx | hx
    · exact hsub x hx
    · rcases List.mem_singleton.mp hx with rfl
      exact hhead

lemma foldl_max_init_le : ∀ (l : List Int) (i : Int), i ≤ l.foldl max i := by
  intro l
  induction l with
  | nil => intro i; exact le_refl i
  | cons c rest ih =>
    intro i
    exact le_trans (le_max_left i c) (ih (max i c))

lemma le_findMAXVal : ∀ (l : List Int) (x : Int), x ∈ l → x ≤ findMAXVal l := by
  have haux : ∀ (l : List Int) (i x : Int), x ∈ l → x ≤ l.foldl max i := by
    intro l
    induction l with
    | nil => intro i x hx; cases hx
    | cons c rest ih =>
      intro i x hx
      rcases List.mem_cons.mp hx with rfl | hx
      · exact le_trans (le_max_right i x) (foldl_max_init_le rest (max i x))
      · exact ih (max i c) x hx
  intro l x hx
  exact haux l (-1) x hx

/-- The detection payload: the victim is the maximum of some node list `pth`
that contains a closed walk of the graph. -/
def VictimSpec (g : Graph) (v : Int) : Prop :=
  ∃ pth, v = findMAXVal pth ∧ (∀ x ∈ pth, x ≤ v) ∧
    ∃ t l, t ∈ pth ∧ walkFrom g t l t ∧ t ≤ v ∧ ∀ x ∈ l, x ∈ pth

/-- Postcondition of `dfs`: on a cycle-free run the node path is restored
and the visited set only grows; on detection the victim satisfies
`VictimSpec`. -/
def DfsPost (g : Graph) (path visited : List Int)
    (r : List Int × List Int × Option Int) : Prop :=
  (r.2.2 = none → r.1 = path ∧ visited ⊆ r.2.1) ∧
  (∀ v, r.2.2 = some v → VictimSpec g v)

/-- Postcondition of the adjacency loop: as `DfsPost`, except that the
cycle-free exit erases `start` from the node path. -/
def LoopPost (g : Graph) (start : Int) (path visited : List Int)
    (r : List Int × List Int × Option Int) : Prop :=
  (r.2.2 = none → r.1 = path.erase start ∧ visited ⊆ r.2.1) ∧
  (∀ v, r.2.2 = some v → VictimSpec g v)

/-- Precondition of `dfs` at a recursive call. -/
def DfsPre (g : Graph) (start : Int) (path visited : List Int) : Prop :=
  PathChain g (start :: path) ∧ start ∉ path ∧ path ⊆ visited

def PDfs (fuel : Nat) : Prop :=
  ∀ (g : Graph) (start : Int) (path visited : List Int),
    DfsPre g start path visited →
    DfsPost g path visited (dfs g fuel start path visited)

def PLoop (fuel : Nat) : Prop :=
  ∀ (g : Graph) (adjs : List Int) (start : Int) (path visited : List Int),
    path.headD 0 = start → path ≠ [] → PathChain g path →
    start ∉ path.tail → path ⊆ visited →
    (∀ a ∈ adjs, a ∈ adjOf g start) →
    LoopPost g start path visited (dfsLoop (dfs g fuel) adjs start path visited)

lemma ploop_of_pdfs (fuel : Nat) (hdfs : PDfs fuel) : PLoop fuel := by
  intro g adjs
  induction adjs with
  | nil =>
    intro start path visited hhead hne hchain hnt hpv _
    have heq : dfsLoop (dfs g fuel) [] start path visited =
        (path.erase start, visited, none) := by
      simp [dfsLoop]
    rw [heq]
    exact ⟨fun _ => ⟨rfl, fun x hx => hx⟩, fun v hv => by simp at hv⟩
  | cons a rest ih =>
    intro start path visited hhead hne hchain hnt hpv hadj
    have hedge : edgeIn g start a := hadj a (List.mem_cons_self a rest)
    by_cases hap : a ∈ path
    · constructor
      · intro hnone
        simp [dfsLoop, hap] at hnone
      · intro v hv
        simp [dfsLoop, hap] at hv
        refine ⟨path, hv.symm, fun x hx => hv ▸ le_findMAXVal path x hx, ?_⟩
        have hedge' : edgeIn g (path.headD 0) a := by rw [hhead]; exact hedge
        obtain ⟨t, l, ht, hw, hsub⟩ := cycle_from_detection g path a hchain hap hedge'
        exact ⟨t, l, ht, hw, hv ▸ le_findMAXVal path t ht, hsub⟩
    · by_cases hav : a ∈ visited
      · have heq : dfsLoop (dfs g fuel) (a :: rest) start path visited =
            dfsLoop (dfs g fuel) rest start path visited := by
          simp [dfsLoop, hap, hav]
        rw [heq]
        exact ih start path visited hhead hne hchain hnt hpv
          (fun x hx => hadj x (List.mem_cons_of_mem a hx))
      · have hpre : DfsPre g a path visited := by
          refine ⟨?_, hap, hpv⟩
          unfold PathChain
          cases path with
          | nil => exact absurd rfl hne
          | cons h t =>
            have : h = start := by simpa using hhead
            subst this
            exact List.chain'_cons.mpr ⟨hedge, hchain⟩
        have hchild := hdfs g a path visited hpre
        rcases hres : dfs g fuel a path visited with ⟨p2, v2, res⟩
        have heq : dfsLoop (dfs g fuel) (a :: rest) start path visited =
            match dfs g fuel a path visited with
            | (p2, v2, some v) => (p2, v2, some v)
            | (p2, v2, none) => dfsLoop (dfs g fuel) rest start p2 v2 := by
          simp [dfsLoop, hap, hav]
        rw [heq, hres]
        cases res with
        | some v =>
          refine ⟨fun hnone => by simp at hnone, fun v' hv' => ?_⟩
          simp at hv'
          have := hchild.2 v (by rw [hres])
          exact hv' ▸ this
        | none =>
          have hclean := hchild.1 (by rw [hres])
          rw [hres] at hclean
          have hp2 : p2 = path := hclean.1
          have hvv2 : visited ⊆ v2 := hclean.2
          rw [hp2]
          have hrec := ih start path v2 hhead hne hchain hnt
            (fun x hx => hvv2 (hpv hx))
            (fun x hx => hadj x (List.mem_cons_of_mem a hx))
          exact ⟨fun hnone => ⟨(hrec.1 hnone).1,
            fun x hx => (hrec.1 hnone).2 (hvv2 hx)⟩, hrec.2⟩

lemma pdfs_all : ∀ fuel, PDfs fuel := by
  intro fuel
  induction fuel with
  | zero =>
    intro g start path visited _
    have heq : dfs g 0 start path visited = (path, visited, none) := by
      simp [dfs]
    rw [heq]
    exact ⟨fun _ => ⟨rfl, fun x hx => hx⟩, fun v hv => by simp at hv⟩
  | succ m ih =>
    intro g start path visited hpre
    rcases hpre with ⟨hchain, hsp, hpv⟩
    have hloop := ploop_of_pdfs m ih
    have hpath' : (if start ∈ path then path else start :: path) = start :: path := by
      simp [hsp]
    have heq : dfs g (m + 1) start path visited =
        dfsLoop (dfs g m) (sortInts (adjOf g start)) start (start :: path)
          (if start ∈ visited then visited else start :: visited) := by
      simp [dfs, hpath']
    set visited' := if start ∈ visited then visited else start :: visited with hv'
    have hvsub : visited ⊆ visited' := by
      intro x hx
      by_cases hsv : start ∈ visited
      · simpa [hv', hsv] using hx
      · simp only [hv', hsv, if_false]
        exact List.mem_cons_of_mem start hx
    have hsv' : start ∈ visited' := by
      by_cases hsv : start ∈ visited <;> simp [hv', hsv]
    have hres := hloop g (sortInts (adjOf g start)) start (start :: path) visited'
      (by simp) (by simp) hchain (by simpa using hsp)
      (by
        intro x hx
        rcases List.mem_cons.mp hx with rfl | hx
        · exact hsv'
        · exact hvsub (hpv hx))
      (by
        intro a ha
        have : a ∈ adjOf g start := by
          have hperm := List.perm_insertionSort (fun x y : Int => x ≤ y) (adjOf g start)
          exact hperm.mem_iff.mp ha
        exact this)
    rw [heq]
    constructor
    · intro hnone
      have h1 := hres.1 hnone
      refine ⟨?_, fun x hx => h1.2 (hvsub hx)⟩
      rw [h1.1]
      exact List.erase_cons_head start path
    · exact hres.2

lemma hcLoop_spec (g : Graph) (fuel : Nat) :
    ∀ (nodes visited : List Int) (v : Int),
      hcLoop g fuel nodes [] visited = some v → VictimSpec g v := by
  intro nodes
  induction nodes with
  | nil => intro visited v hv; simp [hcLoop] at hv
  | cons n rest ih =>
    intro visited v hv
    by_cases hnv : n ∈ visited
    · rw [hcLoop] at hv
      simp [hnv] at hv
      exact ih visited v hv
    · have hpre : DfsPre g n [] visited :=
        ⟨by simp [PathChain], by simp, by simp⟩
      have hchild := pdfs_all fuel g n [] visited hpre
      rcases hres : dfs g fuel n [] visited with ⟨p2, v2, res⟩
      rw [hcLoop] at hv
      simp [hnv, hres] at hv
      cases res with
      | some v' =>
        have := hchild.2 v' (by rw [hres])
        simp at hv
        exact hv ▸ this
      | none =>
        have hclean := hchild.1 (by rw [hres])
        rw [hres] at hclean
        simp at hclean
        rcases hclean with ⟨hp2, _⟩
        subst hp2
        simp at hv
        exact ih v2 v hv

end LockMgr

namespace LockMgr

lemma dfsLoop_congr
    (dfsF dfsF' : Int → List Int → List Int → List Int × List Int × Option Int)
    (h : ∀ a p vis, dfsF' a p vis = dfsF a p vis) :
    ∀ (adjs : List Int) (s : Int) (p vis : List Int),
      dfsLoop dfsF' adjs s p vis = dfsLoop dfsF adjs s p vis := by
  intro adjs
  induction adjs with
  | nil => intro s p vis; rfl
  | cons a rest ih =>
    intro s p vis
    by_cases hap : a ∈ p
    · simp [dfsLoop, hap]
    · by_cases hav : a ∈ vis
      · simp [dfsLoop, hap, hav]
        exact ih s p vis
      · simp only [dfsLoop, hap, hav, if_false, if_neg, h a p vis]
        rcases dfsF a p vis with ⟨p2, v2, res⟩
        cases res with
        | some v => rfl
        | none => exact ih s p2 v2

lemma dfs_congr (g g' : Graph)
    (hadj : ∀ t, sortInts (adjOf g' t) = sortInts (adjOf g t)) :
    ∀ (fuel : Nat) (s : Int) (p vis : List Int),
      dfs g' fuel s p vis = dfs g fuel s p vis := by
  intro fuel
  induction fuel with
  | zero => intro s p vis; rfl
  | succ m ih =>
    intro s p vis
    show dfsLoop (dfs g' m) (sortInts (adjOf g' s)) s _ _ =
      dfsLoop (dfs g m) (sortInts (adjOf g s)) s _ _
    rw [hadj s]
    exact dfsLoop_congr (dfs g m) (dfs g' m) (fun a p2 v2 => ih a p2 v2)
      (sortInts (adjOf g s)) s _ _

lemma hcLoop_congr (g g' : Graph) (fuel : Nat)
    (hadj : ∀ t, sortInts (adjOf g' t) = sortInts (adjOf g t)) :
    ∀ (nodes p vis : List Int),
      hcLoop g' fuel nodes p vis = hcLoop g fuel nodes p vis := by
  intro nodes
  induction nodes with
  | nil => intro p vis; simp [hcLoop]
  | cons n rest ih =>
    intro p vis
    by_cases hnv : n ∈ vis
    · simp [hcLoop, hnv]
      exact ih p vis
    · have h1 : hcLoop g' fuel (n :: rest) p vis =
          match dfs g' fuel n p vis with
          | (_, _, some v) => some v
          | (p2, v2, none) => hcLoop g' fuel rest p2 v2 := by
        simp [hcLoop, hnv]
      have h2 : hcLoop g fuel (n :: rest) p vis =
          match dfs g fuel n p vis with
          | (_, _, some v) => some v
          | (p2, v2, none) => hcLoop g fuel rest p2 v2 := by
        simp [hcLoop, hnv]
      rw [h1, h2, dfs_congr g g' hadj fuel n p vis]
      rcases dfs g fuel n p vis with ⟨p2, v2, res⟩
      cases res with
      | some v => rfl
      | none => exact ih p2 v2

lemma hasCycle_congr (g g' : Graph)
    (hadj : ∀ t, sortInts (adjOf g' t) = sortInts (adjOf g t))
    (hnodes : sortInts (getNodeList g') = sortInts (getNodeList g)) :
    hasCycle g' = hasCycle g := by
  show hcLoop g' ((sortInts (getNodeList g')).length + 1)
      (sortInts (getNodeList g')) [] [] =
    hcLoop g ((sortInts (getNodeList g)).length + 1)
      (sortInts (getNodeList g)) [] []
  rw [hnodes]
  exact hcLoop_congr g g' _ hadj _ [] []

lemma walk_closed_23 :
    ∀ (l : List Int) (a b : Int), walkFrom gEx a l b → a = 2 ∨ a = 3 →
      b = 2 ∨ b = 3 := by
  intro l
  induction l with
  | nil =>
    intro a b hw ha
    rcases ha with rfl | rfl
    · have : b ∈ adjOf gEx 2 := hw
      simp [adjOf, gEx, LRUK.alookup] at this
      exact Or.inr this
    · have : b ∈ adjOf gEx 3 := hw
      simp [adjOf, gEx, LRUK.alookup] at this
      exact Or.inl this
  | cons c rest ih =>
    intro a b hw ha
    rcases hw with ⟨h1, h2⟩
    have hc : c = 2 ∨ c = 3 := by
      rcases ha with rfl | rfl
      · have : c ∈ adjOf gEx 2 := h1
        simp [adjOf, gEx, LRUK.alookup] at this
        exact Or.inr this
      · have : c ∈ adjOf gEx 3 := h1
        simp [adjOf, gEx, LRUK.alookup] at this
        exact Or.inl this
    exact ih c b h2 hc

lemma no_closed_walk_5 : ∀ l, ¬ walkFrom gEx 5 l 5 := by
  intro l hw
  cases l with
  | nil =>
    have : (5 : Int) ∈ adjOf gEx 5 := hw
    simp [adjOf, gEx, LRUK.alookup] at this
  | cons c rest =>
    rcases hw with ⟨h1, h2⟩
    have hc : c = 2 := by
      have : c ∈ adjOf gEx 5 := h1
      simpa [adjOf, gEx, LRUK.alookup] using this
    subst hc
    rcases walk_closed_23 rest 2 5 h2 (Or.inl rfl) with h | h <;> exact absurd h (by decide)

/-- Claim C1 as stated is false: on the wait-for graph with edges 1 -> 5,
5 -> 2, 2 -> 3 and 3 -> 2 (reachable from four lock queues), the detector
selects victim 5, yet 5 lies on no cycle — the only cycle is {2, 3}, whose
highest txn id is 3.  The victim is the maximum over the whole DFS path, not
over the detected cycle. -/
theorem c1_counterexample : ¬ C1Claim := by
  intro h
  obtain ⟨l, hw, _⟩ := h gEx 5 (by decide)
  exact no_closed_walk_5 l hw

/-- Amended claim C1: when the detector finds a victim, the victim is the
highest txn id on the DFS node path at the moment of detection; that path
contains a cycle (a closed walk) of the wait-for graph, so the victim is at
least as large as every transaction of the detected cycle, but it need not
belong to the cycle.  The choice is deterministic given the graph: any graph
representation with the same sorted node list and the same sorted adjacency
lists yields the same victim. -/
theorem c1_victim_dfs_path_amended (g : Graph) (v : Int)
    (h : hasCycle g = some v) :
    VictimSpec g v ∧
    ∀ g' : Graph, (∀ t, sortInts (adjOf g' t) = sortInts (adjOf g t)) →
      sortInts (getNodeList g') = sortInts (getNodeList g) →
      hasCycle g' = some v := by
  constructor
  · have h' : hcLoop g ((sortInts (getNodeList g)).length + 1)
        (sortInts (getNodeList g)) [] [] = some v := h
    exact hcLoop_spec g _ _ [] v h'
  · intro g' hadj hnodes
    rw [hasCycle_congr g g' hadj hnodes]
    exact h

/-- Witness for the amended C1 at the concrete graph `gEx`. -/
theorem c1_victim_dfs_path_amended_witness :
    hasCycle gEx = some 5 ∧ VictimSpec gEx 5 :=
  ⟨by decide, (c1_victim_dfs_path_amended gEx 5 (by decide)).1⟩

end LockMgr

/-! ## Theorems about the detection tick (C7) -/

namespace LockMgr

lemma adjOf_cons (q : Int × List Int) (rest : Graph) (t : Int) :
    adjOf (q :: rest) t = if q.1 = t then q.2 else adjOf rest t := by
  by_cases h : q.1 = t <;> simp [adjOf, LRUK.alookup, h]

lemma mem_adjOf_addEdge :
    ∀ (g : Graph) (a b t u : Int), u ∈ adjOf (addEdge g a b) t →
      u ∈ adjOf g t ∨ (t = a ∧ u = b) := by
  intro g
  induction g with
  | nil =>
    intro a b t u hu
    rw [show addEdge [] a b = [(a, [b])] from rfl, adjOf_cons] at hu
    by_cases ht : a = t
    · subst ht
      simp at hu
      exact Or.inr ⟨rfl, hu⟩
    · simp [ht, adjOf, LRUK.alookup] at hu
  | cons p rest ih =>
    intro a b t u hu
    by_cases hp : p.1 = a
    · by_cases hb : b ∈ p.2
      · have : addEdge (p :: rest) a b = p :: rest := by
          simp [addEdge, hp, hb]
        rw [this] at hu
        exact Or.inl hu
      · have : addEdge (p :: rest) a b = (p.1, p.2 ++ [b]) :: rest := by
          simp [addEdge, hp, hb]
        rw [this, adjOf_cons] at hu
        by_cases ht : p.1 = t
        · simp only [ht, if_pos] at hu
          rcases List.mem_append.mp hu with hu | hu
          · refine Or.inl ?_
            rw [adjOf_cons]
            simp [ht, hu]
          · rcases List.mem_singleton.mp hu with rfl
            exact Or.inr ⟨by rw [← ht, hp], rfl⟩
        · simp only [ht, if_false, if_neg] at hu
          refine Or.inl ?_
          rw [adjOf_cons]
          simp [ht, hu]
    · have : addEdge (p :: rest) a b = p :: addEdge rest a b := by
        simp [addEdge, hp]
      rw [this, adjOf_cons] at hu
      by_cases ht : p.1 = t
      · simp only [ht, if_pos] at hu
        refine Or.inl ?_
        rw [adjOf_cons]
        simp [ht, hu]
      · simp only [ht, if_false, if_neg] at hu
        rcases ih a b t u hu with h | h
        · refine Or.inl ?_
          rw [adjOf_cons]
          simp [ht, h]
        · exact Or.inr h

/-- Membership of a transaction among the requests of a queue list. -/
def ReqTxnIn (qs : List (List Request)) (t : Int) : Prop :=
  ∃ q ∈ qs, ∃ r ∈ q, r.txnId = t

lemma mem_adjOf_grantFold :
    ∀ (grs : List Request) (g : Graph) (req : Request) (t u : Int),
      u ∈ adjOf (grs.foldl
        (fun gg gr =>
          if canCoexist gr.mode req.mode then gg
          else addEdge gg req.txnId gr.txnId) g) t →
      u ∈ adjOf g t ∨ (t = req.txnId ∧ ∃ gr ∈ grs, gr.txnId = u) := by
  intro grs
  induction grs with
  | nil => intro g req t u hu; exact Or.inl hu
  | cons gr rest ih =>
    intro g req t u hu
    simp only [List.foldl_cons] at hu
    rcases ih _ req t u hu with h | ⟨ht, gr', hgr', hu'⟩
    · by_cases hco : canCoexist gr.mode req.mode
      · simp only [hco, if_pos] at h
        exact Or.inl h
      · simp only [hco, if_false, if_neg] at h
        rcases mem_adjOf_addEdge g req.txnId gr.txnId t u h with h2 | ⟨ht, hub⟩
        · exact Or.inl h2
        · exact Or.inr ⟨ht, gr, List.mem_cons_self gr rest, hub.symm⟩
    · exact Or.inr ⟨ht, gr', List.mem_cons_of_mem gr hgr', hu'⟩

lemma mem_adjOf_queueFold :
    ∀ (l : List Request) (g : Graph) (gl : List Request) (t u : Int),
      u ∈ adjOf ((l.foldl
        (fun acc req =>
          if req.granted then (acc.1, acc.2 ++ [req])
          else
            (acc.2.foldl
              (fun gg gr =>
                if canCoexist gr.mode req.mode then gg
                else addEdge gg req.txnId gr.txnId) acc.1,
             acc.2))
        (g, gl)).1) t →
      u ∈ adjOf g t ∨
        ((∃ r ∈ l, r.txnId = t) ∧ (∃ r ∈ gl ++ l, r.txnId = u)) := by
  intro l
  induction l with
  | nil => intro g gl t u hu; exact Or.inl hu
  | cons req rest ih =>
    intro g gl t u hu
    simp only [List.foldl_cons] at hu
    by_cases hg : req.granted
    · simp only [hg, if_pos] at hu
      rcases ih g (gl ++ [req]) t u hu with h | ⟨⟨r, hr, hrt⟩, ⟨r', hr', hru⟩⟩
      · exact Or.inl h
      · refine Or.inr ⟨⟨r, List.mem_cons_of_mem req hr, hrt⟩, ⟨r', ?_, hru⟩⟩
        rcases List.mem_append.mp hr' with h' | h'
        · rcases List.mem_append.mp h' with h'' | h''
          · exact List.mem_append.mpr (Or.inl h'')
          · rcases List.mem_singleton.mp h'' with rfl
            exact List.mem_append.mpr (Or.inr (List.mem_cons_self _ _))
        · exact List.mem_append.mpr (Or.inr (List.mem_cons_of_mem req h'))
    · simp only [hg, if_false, if_neg] at hu
      rcases ih _ gl t u hu with h | ⟨⟨r, hr, hrt⟩, ⟨r', hr', hru⟩⟩
      · rcases mem_adjOf_grantFold gl g req t u h with h2 | ⟨ht, gr, hgr, hgu⟩
        · exact Or.inl h2
        · refine Or.inr ⟨⟨req, List.mem_cons_self req rest, ht.symm⟩,
            ⟨gr, List.mem_append.mpr (Or.inl hgr), hgu⟩⟩
      · refine Or.inr ⟨⟨r, List.mem_cons_of_mem req hr, hrt⟩, ⟨r', ?_, hru⟩⟩
        rcases List.mem_append.mp hr' with h' | h'
        · exact List.mem_append.mpr (Or.inl h')
        · exact List.mem_append.mpr (Or.inr (List.mem_cons_of_mem req h'))

lemma mem_adjOf_cgq (g : Graph) (q : List Request) (t u : Int) :
    u ∈ adjOf (constructGraphByOneQueue g q) t →
    u ∈ adjOf g t ∨ ((∃ r ∈ q, r.txnId = t) ∧ (∃ r ∈ q, r.txnId = u)) := by
  intro hu
  have := mem_adjOf_queueFold q g [] t u hu
  simpa using this

lemma mem_adjOf_gwf :
    ∀ (qs : List (List Request)) (g : Graph) (t u : Int),
      u ∈ adjOf (qs.foldl constructGraphByOneQueue g) t →
      u ∈ adjOf g t ∨ (ReqTxnIn qs t ∧ ReqTxnIn qs u) := by
  intro qs
  induction qs with
  | nil => intro g t u hu; exact Or.inl hu
  | cons q rest ih =>
    intro g t u hu
    simp only [List.foldl_cons] at hu
    rcases ih _ t u hu with h | ⟨⟨q', hq', hr'⟩, ⟨q'', hq'', hr''⟩⟩
    · rcases mem_adjOf_cgq g q t u h with h2 | ⟨h3, h4⟩
      · exact Or.inl h2
      · exact Or.inr ⟨⟨q, List.mem_cons_self q rest, h3⟩,
          ⟨q, List.mem_cons_self q rest, h4⟩⟩
    · exact Or.inr ⟨⟨q', List.mem_cons_of_mem q hq', hr'⟩,
        ⟨q'', List.mem_cons_of_mem q hq'', hr''⟩⟩

lemma gwf_endpoints (qs : List (List Request)) (t u : Int)
    (hu : u ∈ adjOf (generateWaitForGraph qs) t) :
    ReqTxnIn qs t ∧ ReqTxnIn qs u := by
  rcases mem_adjOf_gwf qs [] t u hu with h | h
  · simp [adjOf, LRUK.alookup] at h
  · exact h

/-- Claim C7 as stated is false: with four queues forming the two disjoint
wait cycles 1<->2 and 3<->4, the tick aborts only victim 2 (cycle {1,2}),
and the graph rebuilt from the remaining requests still contains the cycle
3 -> 4 -> 3. -/
theorem c7_counterexample : ¬ C7Claim := by
  intro h
  exact h qsEx 3 [4] (by decide)

/-- Amended claim C7: a detector tick selects at most one victim.  When it
selects one, the victim's requests are removed from every queue, so the
victim carries no edge in the wait-for graph rebuilt from the remaining
requests — cycles through the victim are broken — but cycles that avoid the
victim survive the tick. -/
theorem c7_tick_amended (qs : List (List Request)) (v : Int)
    (h : (runCycleDetectionTick qs).2 = some v) :
    (runCycleDetectionTick qs).1 =
      qs.map (fun q => q.filter (fun r => r.txnId ≠ v)) ∧
    (∀ q ∈ (runCycleDetectionTick qs).1, ∀ r ∈ q, r.txnId ≠ v) ∧
    adjOf (generateWaitForGraph (runCycleDetectionTick qs).1) v = [] ∧
    (∀ t, v ∉ adjOf (generateWaitForGraph (runCycleDetectionTick qs).1) t) := by
  have hv : hasCycle (generateWaitForGraph qs) = some v := by
    unfold runCycleDetectionTick at h
    rcases hh : hasCycle (generateWaitForGraph qs) with _ | w
    · rw [hh] at h; simp at h
    · rw [hh] at h; simp at h; rw [h]
  have h1 : (runCycleDetectionTick qs).1 =
      qs.map (fun q => q.filter (fun r => r.txnId ≠ v)) := by
    unfold runCycleDetectionTick
    rw [hv]
  have h2 : ∀ q ∈ (runCycleDetectionTick qs).1, ∀ r ∈ q, r.txnId ≠ v := by
    rw [h1]
    intro q hq r hr
    rcases List.mem_map.mp hq with ⟨q0, _, rfl⟩
    have := List.of_mem_filter hr
    simpa using this
  have hnotin : ¬ ReqTxnIn (runCycleDetectionTick qs).1 v := by
    rintro ⟨q, hq, r, hr, hrv⟩
    exact h2 q hq r hr hrv
  refine ⟨h1, h2, ?_, ?_⟩
  · rcases hres : adjOf (generateWaitForGraph (runCycleDetectionTick qs).1) v
      with _ | ⟨u, urest⟩
    · rfl
    · exfalso
      have : u ∈ adjOf (generateWaitForGraph (runCycleDetectionTick qs).1) v := by
        rw [hres]; exact List.mem_cons_self u urest
      exact hnotin (gwf_endpoints _ v u this).1
  · intro t hvmem
    exact hnotin (gwf_endpoints _ t v hvmem).2

/-- Witness for the amended C7 at the concrete queues `qsEx` (victim 2). -/
theorem c7_tick_amended_witness :
    (runCycleDetectionTick qsEx).2 = some 2 ∧
    ∀ q ∈ (runCycleDetectionTick qsEx).1, ∀ r ∈ q, r.txnId ≠ 2 :=
  ⟨by decide, (c7_tick_amended qsEx 2 (by decide)).2.1⟩

end LockMgr

/-! ## The lock-request queue and its grant algorithm (C8) -/

namespace LockMgr

/-- The transaction-state environment consulted through
`TransactionManager::GetTransaction(t)->GetState()`.  Transactions absent
from the list are fresh, hence GROWING. -/
def Env : Type := List (Int × TransactionState)

/-- The state of transaction `t` in environment `env`. -/
def stateOf (env : Env) (t : Int) : TransactionState :=
  (LRUK.alookup env t).getD TransactionState.GROWING

/-- The skip test of `TryGrantLock`: requests of ABORTED or COMMITTED
transactions are treated as invalid and ignored. -/
def inactive (env : Env) (t : Int) : Bool :=
  stateOf env t == TransactionState.ABORTED ||
    stateOf env t == TransactionState.COMMITTED

/-- `request_addr->granted_ = true` performed in place at index `i` of the
queue. -/
def setGrantedAt : List Request → Nat → List Request
  | [], _ => []
  | r :: rest, 0 => ⟨r.txnId, r.mode, true⟩ :: rest
  | r :: rest, j + 1 => r :: setGrantedAt rest j

/-- The scanning loop of `TryGrantLock` over the requests that precede the
target: it processes the `c` requests at positions `j, j+1, ...` of `q`,
skipping requests of ABORTED/COMMITTED transactions, collecting in `ms` the
modes of the remaining granted requests, recursively granting (via `tgF`,
the recursive `TryGrantLock` call) the ungranted ones, and returning false
as soon as one of them cannot be granted (FIFO). -/
def tgLoop (tgF : List Request → Nat → List Request × Bool) (env : Env) :
    Nat → Nat → List Request → List LockMode →
    List Request × List LockMode × Bool
  | 0, _, q, ms => (q, ms, true)
  | c + 1, j, q, ms =>
    match q[j]? with
    | none => (q, ms, true)
    | some r =>
      if inactive env r.txnId then tgLoop tgF env c (j + 1) q ms
      else if r.granted then tgLoop tgF env c (j + 1) q (ms ++ [r.mode])
      else
        match tgF q j with
        | (q2, true) => tgLoop tgF env c (j + 1) q2 (ms ++ [r.mode])
        | (q2, false) => (q2, ms, false)

/-- `LockManager::TryGrantLock` on the request at index `i` of the queue:
already-granted requests return true immediately; otherwise the queue
prefix is scanned (granting grantable predecessors in place), and the
request is granted exactly when its mode can coexist with every collected
mode.  The C++ recursion terminates because every recursive call targets a
strictly earlier request; `fuel` bounds that depth. -/
def tryGrant (env : Env) : Nat → List Request → Nat → List Request × Bool
  | 0, q, _ => (q, false)
  | fuel + 1, q, i =>
    match q[i]? with
    | none => (q, false)
    | some r =>
      if r.granted then (q, true)
      else
        match tgLoop (tryGrant env fuel) env i 0 q [] with
        | (q2, ms, true) =>
            if ms.all (fun m => canCoexist m r.mode) then
              (setGrantedAt q2 i, true)
            else (q2, false)
        | (q2, _, false) => (q2, false)

/-- `LockRequestQueue::UnSafeRemove` / `RemoveLockRequestOf`: drop every
request of transaction `t` from the queue. -/
def removeReqsOf (q : List Request) (t : Int) : List Request :=
  q.filter (fun r => r.txnId ≠ t)

/-- `LockRequestQueue::InsertToRequestQueue` with `upgrade = true`: advance
past the granted requests and insert the new request before the first
ungranted one (at the tail if every request is granted). -/
def insertAtFirstUngranted : List Request → Request → List Request
  | [], req => [req]
  | r :: rest, req =>
      if r.granted then r :: insertAtFirstUngranted rest req
      else req :: r :: rest

/-- One lock-manager operation on a single lock-request queue, as the code
performs them.  `newBucket` is `TryInsertNewBucket`; `request` is
`TryLock`'s insert followed by the first wait-predicate evaluation; `wake`
is a re-evaluation of the wait predicate of the request at index `i` after
a notification; `remove` is `UnSafeRemove`/`RemoveLockRequestOf` (unlock,
post-abort cleanup, or the deadlock detector); `upgrade` is `TryLock` with
`upgrade = true` (drop the old request, insert before the first ungranted
request, evaluate); `setState` is a transaction-state transition performed
outside the queue latch (`AbortAndThrowException`, the deadlock detector's
`SetState(ABORTED)`, or the transaction manager committing or aborting a
transaction), which the queue operations observe through
`TransactionManager::GetTransaction`. -/
inductive StepF : Env × List Request → Env × List Request → Prop
  | newBucket (env : Env) (t : Int) (m : LockMode) :
      StepF (env, []) (env, [⟨t, m, true⟩])
  | request (env : Env) (q : List Request) (t : Int) (m : LockMode)
      (h : inactive env t = false) :
      StepF (env, q)
        (env, (tryGrant env (q.length + 2) (q ++ [⟨t, m, false⟩]) q.length).1)
  | wake (env : Env) (q : List Request) (i : Nat) :
      StepF (env, q) (env, (tryGrant env (q.length + 1) q i).1)
  | remove (env : Env) (q : List Request) (t : Int) :
      StepF (env, q) (env, removeReqsOf q t)
  | upgrade (env : Env) (q : List Request) (t : Int) (m : LockMode)
      (h : inactive env t = false) :
      StepF (env, q)
        (env,
          (tryGrant env (q.length + 2)
            (insertAtFirstUngranted (removeReqsOf q t) ⟨t, m, false⟩)
            ((removeReqsOf q t).takeWhile (fun r => r.granted)).length).1)
  | setState (env : Env) (q : List Request) (t : Int) (s : TransactionState)
      (h : s ≠ TransactionState.GROWING) :
      StepF (env, q) ((t, s) :: env, q)

/-- States of one queue reachable by lock-manager operations from the empty
queue. -/
inductive ReachF : Env × List Request → Prop
  | init : ReachF ([], [])
  | step (s s2 : Env × List Request) (h1 : ReachF s) (h2 : StepF s s2) :
      ReachF s2

/-- Every request in the queue belongs to a live (neither ABORTED nor
COMMITTED) transaction. -/
def AllActive (env : Env) (q : List Request) : Prop :=
  ∀ r ∈ q, inactive env r.txnId = false

/-- The granted requests of the queue precede the ungranted ones. -/
def GrantedFirst (q : List Request) : Prop :=
  List.Pairwise (fun a b => b.granted = true → a.granted = true) q

/-- Any two granted requests of the queue have mutually compatible modes. -/
def GrantedCompat (q : List Request) : Prop :=
  List.Pairwise
    (fun a b => a.granted = true → b.granted = true →
      canCoexist a.mode b.mode = true) q

/-- Claim C8 as stated: after every lock-manager operation, in every queue
the granted requests form a prefix of the queue and are pairwise
compatible. -/
def C8Claim : Prop :=
  ∀ (e : Env) (q : List Request), ReachF (e, q) → GrantedFirst q ∧ GrantedCompat q

/-- The disciplined operations: as `StepF`, except that a transaction
reaches ABORTED or COMMITTED only together with the removal of its requests
from the queue (`finish`), so no stale request of a dead transaction is
ever left behind for `TryGrantLock` to skip. -/
inductive StepA : Env × List Request → Env × List Request → Prop
  | newBucket (env : Env) (t : Int) (m : LockMode)
      (h : inactive env t = false) :
      StepA (env, []) (env, [⟨t, m, true⟩])
  | request (env : Env) (q : List Request) (t : Int) (m : LockMode)
      (h : inactive env t = false) :
      StepA (env, q)
        (env, (tryGrant env (q.length + 2) (q ++ [⟨t, m, false⟩]) q.length).1)
  | wake (env : Env) (q : List Request) (i : Nat) :
      StepA (env, q) (env, (tryGrant env (q.length + 1) q i).1)
  | unlock (env : Env) (q : List Request) (t : Int) :
      StepA (env, q) (env, removeReqsOf q t)
  | finish (env : Env) (q : List Request) (t : Int) (s : TransactionState)
      (h : s = TransactionState.COMMITTED ∨ s = TransactionState.ABORTED) :
      StepA (env, q) ((t, s) :: env, removeReqsOf q t)
  | shrink (env : Env) (q : List Request) (t : Int) :
      StepA (env, q) ((t, TransactionState.SHRINKING) :: env, q)
  | upgrade (env : Env) (q : List Request) (t : Int) (m : LockMode)
      (h : inactive env t = false) :
      StepA (env, q)
        (env,
          (tryGrant env (q.length + 2)
            (insertAtFirstUngranted (removeReqsOf q t) ⟨t, m, false⟩)
            ((removeReqsOf q t).takeWhile (fun r => r.granted)).length).1)

/-- States reachable by disciplined operations. -/
inductive ReachA : Env × List Request → Prop
  | init : ReachA ([], [])
  | step (s s2 : Env × List Request) (h1 : ReachA s) (h2 : StepA s s2) :
      ReachA s2

/-- The queue invariant carried through the disciplined operations. -/
def QInv (env : Env) (q : List Request) : Prop :=
  AllActive env q ∧ GrantedFirst q ∧ GrantedCompat q

end LockMgr

namespace LockMgr

lemma setGrantedAt_length (q : List Request) (j : Nat) :
    (setGrantedAt q j).length = q.length := by
  induction q generalizing j with
  | nil => rfl
  | cons r rest ih =>
    cases j with
    | zero => rfl
    | succ j => simp [setGrantedAt, ih]

lemma setGrantedAt_getElem (q : List Request) (j k : Nat) :
    (setGrantedAt q j)[k]? =
      if k = j then (q[j]?).map (fun r => (⟨r.txnId, r.mode, true⟩ : Request))
      else q[k]? := by
  induction q generalizing j k with
  | nil => simp [setGrantedAt]
  | cons r rest ih =>
    cases j with
    | zero =>
      cases k with
      | zero => simp [setGrantedAt]
      | succ k => simp [setGrantedAt]
    | succ j =>
      cases k with
      | zero => simp [setGrantedAt]
      | succ k =>
        simp only [setGrantedAt, List.getElem?_cons_succ, ih]
        by_cases hkj : k = j <;> simp [hkj]

lemma setGrantedAt_map_txnId (q : List Request) (j : Nat) :
    (setGrantedAt q j).map (fun r => r.txnId) = q.map (fun r => r.txnId) := by
  induction q generalizing j with
  | nil => rfl
  | cons r rest ih =>
    cases j with
    | zero => simp [setGrantedAt]
    | succ j => simp [setGrantedAt, ih]

lemma setGrantedAt_map_mode (q : List Request) (j : Nat) :
    (setGrantedAt q j).map (fun r => r.mode) = q.map (fun r => r.mode) := by
  induction q generalizing j with
  | nil => rfl
  | cons r rest ih =>
    cases j with
    | zero => simp [setGrantedAt]
    | succ j => simp [setGrantedAt, ih]

lemma mem_insertAtFirstUngranted (l : List Request) (req x : Request)
    (hx : x ∈ insertAtFirstUngranted l req) : x = req ∨ x ∈ l := by
  induction l with
  | nil => simp [insertAtFirstUngranted] at hx; exact Or.inl hx
  | cons r rest ih =>
    cases hg : r.granted with
    | true =>
      rw [show insertAtFirstUngranted (r :: rest) req =
          r :: insertAtFirstUngranted rest req from by
        simp [insertAtFirstUngranted, hg]] at hx
      rcases List.mem_cons.mp hx with h | h
      · exact Or.inr (by simp [h])
      · rcases ih h with h2 | h2
        · exact Or.inl h2
        · exact Or.inr (List.mem_cons_of_mem _ h2)
    | false =>
      rw [show insertAtFirstUngranted (r :: rest) req = req :: r :: rest from by
        simp [insertAtFirstUngranted, hg]] at hx
      rcases List.mem_cons.mp hx with h | h
      · exact Or.inl h
      · exact Or.inr h

lemma allActive_of_map_eq (env : Env) (q q2 : List Request)
    (h : q2.map (fun r => r.txnId) = q.map (fun r => r.txnId))
    (hA : AllActive env q) : AllActive env q2 := by
  intro r hr
  have hmem : r.txnId ∈ q2.map (fun r => r.txnId) :=
    List.mem_map_of_mem _ hr
  rw [h] at hmem
  rcases List.mem_map.mp hmem with ⟨r0, hr0, he⟩
  rw [← he]
  exact hA r0 hr0

end LockMgr

namespace LockMgr

lemma tgLoop_granted_run (tgF : List Request → Nat → List Request × Bool)
    (env : Env) :
    ∀ (c j : Nat) (q : List Request) (ms : List LockMode),
      (∀ k x, k < c → q[j + k]? = some x →
        x.granted = true ∧ inactive env x.txnId = false) →
      tgLoop tgF env c j q ms =
        (q, ms ++ ((q.drop j).take c).map (fun r => r.mode), true) := by
  intro c
  induction c with
  | zero => intro j q ms _; simp [tgLoop]
  | succ c ih =>
    intro j q ms h
    rcases hj : q[j]? with _ | r
    · have hlen : q.length ≤ j := by
        by_contra hlt
        push_neg at hlt
        rw [List.getElem?_eq_getElem hlt] at hj
        exact absurd hj (by simp)
      have hdrop : q.drop j = [] := List.drop_eq_nil_of_le hlen
      simp [tgLoop, hj, hdrop]
    · have hr := h 0 r (by omega) (by simpa using hj)
      have h2 : ∀ k x, k < c → q[j + 1 + k]? = some x →
          x.granted = true ∧ inactive env x.txnId = false := by
        intro k x hk hkx
        refine h (k + 1) x (by omega) ?_
        rw [show j + (k + 1) = j + 1 + k from by omega]
        exact hkx
      have hstep : tgLoop tgF env (c + 1) j q ms =
          tgLoop tgF env c (j + 1) q (ms ++ [r.mode]) := by
        simp [tgLoop, hj, hr.1, hr.2]
      rw [hstep, ih (j + 1) q (ms ++ [r.mode]) h2]
      rcases List.getElem?_eq_some.mp hj with ⟨hl, he⟩
      rw [List.drop_eq_getElem_cons hl, he]
      simp

lemma tryGrant_on_granted_run (env : Env) (f : Nat) (q : List Request)
    (i : Nat) (r : Request) (hi : q[i]? = some r) (hr : r.granted = false)
    (hpre : ∀ k x, k < i → q[k]? = some x →
      x.granted = true ∧ inactive env x.txnId = false) :
    tryGrant env (f + 1) q i =
      if ((q.take i).map (fun r => r.mode)).all
          (fun m => canCoexist m r.mode) then
        (setGrantedAt q i, true)
      else (q, false) := by
  have hloop := tgLoop_granted_run (tryGrant env f) env i 0 q [] (by
    intro k x hk hkx
    exact hpre k x hk (by simpa using hkx))
  rw [List.drop_zero] at hloop
  simp [tryGrant, hi, hr, hloop]

end LockMgr

namespace LockMgr

lemma mem_of_opt {α : Type} (l : List α) (k : Nat) (x : α)
    (h : l[k]? = some x) : x ∈ l := by
  rcases List.getElem?_eq_some.mp h with ⟨hk, he⟩
  rw [← he]
  exact List.getElem_mem hk

lemma grantedFirst_iff_opt (q : List Request) :
    GrantedFirst q ↔ ∀ (a b : Nat) (x y : Request), a < b → q[a]? = some x →
      q[b]? = some y → y.granted = true → x.granted = true := by
  constructor
  · intro h a b x y hab hx hy hyg
    have hg := List.pairwise_iff_getElem.mp h
    rcases List.getElem?_eq_some.mp hx with ⟨ha, hxe⟩
    rcases List.getElem?_eq_some.mp hy with ⟨hb, hye⟩
    rw [← hxe]
    rw [← hye] at hyg
    exact hg a b ha hb hab hyg
  · intro h
    refine List.pairwise_iff_getElem.mpr ?_
    intro a b ha hb hab hyg
    exact h a b _ _ hab (List.getElem?_eq_getElem ha)
      (List.getElem?_eq_getElem hb) hyg

lemma grantedCompat_iff_opt (q : List Request) :
    GrantedCompat q ↔ ∀ (a b : Nat) (x y : Request), a < b → q[a]? = some x →
      q[b]? = some y → x.granted = true → y.granted = true →
      canCoexist x.mode y.mode = true := by
  constructor
  · intro h a b x y hab hx hy hxg hyg
    have hg := List.pairwise_iff_getElem.mp h
    rcases List.getElem?_eq_some.mp hx with ⟨ha, hxe⟩
    rcases List.getElem?_eq_some.mp hy with ⟨hb, hye⟩
    rw [← hxe, ← hye]
    rw [← hxe] at hxg
    rw [← hye] at hyg
    exact hg a b ha hb hab hxg hyg
  · intro h
    refine List.pairwise_iff_getElem.mpr ?_
    intro a b ha hb hab hxg hyg
    exact h a b _ _ hab (List.getElem?_eq_getElem ha)
      (List.getElem?_eq_getElem hb) hxg hyg

lemma setGrantedAt_opt (q : List Request) (i : Nat) (r : Request)
    (hi : q[i]? = some r) :
    ∀ k : Nat, (setGrantedAt q i)[k]? =
      if k = i then some (⟨r.txnId, r.mode, true⟩ : Request) else q[k]? := by
  intro k
  rw [setGrantedAt_getElem, hi]
  by_cases hk : k = i <;> simp [hk]

lemma setGrantedAt_inv (env : Env) (q : List Request) (i : Nat) (r : Request)
    (hA : AllActive env q) (h1 : GrantedFirst q) (h2 : GrantedCompat q)
    (hi : q[i]? = some r) (hr : r.granted = false)
    (hpre : ∀ k x, k < i → q[k]? = some x → x.granted = true)
    (hco : ∀ m ∈ (q.take i).map (fun r => r.mode),
      canCoexist m r.mode = true) :
    AllActive env (setGrantedAt q i) ∧ GrantedFirst (setGrantedAt q i) ∧
      GrantedCompat (setGrantedAt q i) ∧
      (∀ k x, k < i + 1 → (setGrantedAt q i)[k]? = some x →
        x.granted = true) := by
  have hopt := setGrantedAt_opt q i r hi
  have h1o := (grantedFirst_iff_opt q).mp h1
  have h2o := (grantedCompat_iff_opt q).mp h2
  refine ⟨allActive_of_map_eq env q _ (setGrantedAt_map_txnId q i) hA,
    ?_, ?_, ?_⟩
  · refine (grantedFirst_iff_opt _).mpr ?_
    intro a b x y hab hx hy hyg
    rw [hopt a] at hx
    rw [hopt b] at hy
    by_cases hbi : b = i
    · rw [if_pos hbi] at hy
      have hai : ¬ a = i := by omega
      rw [if_neg hai] at hx
      exact hpre a x (by omega) hx
    · rw [if_neg hbi] at hy
      by_cases hai : a = i
      · rw [if_pos hai] at hx
        cases hx
        rfl
      · rw [if_neg hai] at hx
        exact h1o a b x y hab hx hy hyg
  · refine (grantedCompat_iff_opt _).mpr ?_
    intro a b x y hab hx hy hxg hyg
    rw [hopt a] at hx
    rw [hopt b] at hy
    by_cases hbi : b = i
    · rw [if_pos hbi] at hy
      have hai : ¬ a = i := by omega
      rw [if_neg hai] at hx
      have hxm : x.mode ∈ (q.take i).map (fun r => r.mode) := by
        refine List.mem_map_of_mem _ (mem_of_opt _ a _ ?_)
        rw [List.getElem?_take]
        rw [if_pos (by omega : a < i)]
        exact hx
      have := hco x.mode hxm
      cases hy
      simpa using this
    · rw [if_neg hbi] at hy
      by_cases hai : a = i
      · rw [if_pos hai] at hx
        exfalso
        have hrg : r.granted = true := h1o i b r y (by omega) hi hy hyg
        rw [hr] at hrg
        exact absurd hrg (by decide)
      · rw [if_neg hai] at hx
        exact h2o a b x y hab hx hy hxg hyg
  · intro k x hk hx
    rw [hopt k] at hx
    by_cases hki : k = i
    · rw [if_pos hki] at hx
      cases hx
      rfl
    · rw [if_neg hki] at hx
      exact hpre k x (by omega) hx

end LockMgr

namespace LockMgr

set_option maxHeartbeats 1000000 in
lemma tgLoop_main (env : Env) (f : Nat) :
    ∀ (c j : Nat) (q : List Request) (ms : List LockMode)
      (q2 : List Request) (ms2 : List LockMode) (b : Bool),
      AllActive env q → GrantedFirst q → GrantedCompat q →
      (∀ k x, k < j → q[k]? = some x → x.granted = true) →
      ms = (q.take j).map (fun r => r.mode) →
      j + c ≤ q.length →
      tgLoop (tryGrant env f) env c j q ms = (q2, ms2, b) →
      q2.map (fun r => r.txnId) = q.map (fun r => r.txnId) ∧
      q2.map (fun r => r.mode) = q.map (fun r => r.mode) ∧
      GrantedFirst q2 ∧ GrantedCompat q2 ∧
      (∀ k, j + c ≤ k → q2[k]? = q[k]?) ∧
      (b = true →
        (∀ k x, k < j + c → q2[k]? = some x → x.granted = true) ∧
        ms2 = (q2.take (j + c)).map (fun r => r.mode)) := by
  intro c
  induction c with
  | zero =>
    intro j q ms q2 ms2 b hA h1 h2 hpre hms _ heq
    simp only [tgLoop, Prod.mk.injEq] at heq
    obtain ⟨rfl, rfl, rfl⟩ := heq
    refine ⟨rfl, rfl, h1, h2, fun k _ => rfl, fun _ => ⟨?_, ?_⟩⟩
    · intro k x hk hx
      exact hpre k x (by omega) hx
    · rw [hms]
      congr 1
  | succ c ih =>
    intro j q ms q2 ms2 b hA h1 h2 hpre hms hlen heq
    have hjlt : j < q.length := by omega
    obtain ⟨r, hj⟩ : ∃ r, q[j]? = some r := ⟨_, List.getElem?_eq_getElem hjlt⟩
    have hact : inactive env r.txnId = false := hA r (mem_of_opt q j r hj)
    have hstep : tgLoop (tryGrant env f) env (c + 1) j q ms =
        if r.granted then
          tgLoop (tryGrant env f) env c (j + 1) q (ms ++ [r.mode])
        else if (tryGrant env f q j).2 = true then
          tgLoop (tryGrant env f) env c (j + 1) (tryGrant env f q j).1
            (ms ++ [r.mode])
        else ((tryGrant env f q j).1, ms, false) := by
      rcases htg : tryGrant env f q j with ⟨qq, bb⟩
      cases bb <;> simp [tgLoop, hj, hact, htg]
    cases hgr : r.granted with
    | true =>
      rw [hstep, if_pos hgr] at heq
      have hms2 : ms ++ [r.mode] = (q.take (j + 1)).map (fun r => r.mode) := by
        rw [hms, List.take_succ, hj]
        simp
      have hpre2 : ∀ k x, k < j + 1 → q[k]? = some x → x.granted = true := by
        intro k x hk hx
        by_cases hkj : k = j
        · subst hkj
          rw [hj] at hx
          cases hx
          exact hgr
        · exact hpre k x (by omega) hx
      obtain ⟨m1, m2, g1, g2, hun, hbt⟩ :=
        ih (j + 1) q (ms ++ [r.mode]) q2 ms2 b hA h1 h2 hpre2 hms2
          (by omega) heq
      refine ⟨m1, m2, g1, g2, ?_, ?_⟩
      · intro k hk
        exact hun k (by omega)
      · intro hb
        obtain ⟨hp, hm⟩ := hbt hb
        refine ⟨fun k x hk hx => hp k x (by omega) hx, ?_⟩
        rw [show j + (c + 1) = (j + 1) + c from by omega]
        exact hm
    | false =>
      rw [hstep, if_neg (by simp [hgr])] at heq
      cases f with
      | zero =>
        have hne : ¬((tryGrant env 0 q j).2 = true) := by simp [tryGrant]
        rw [if_neg hne] at heq
        have hq1 : (tryGrant env 0 q j).1 = q := by simp [tryGrant]
        rw [hq1] at heq
        rw [Prod.mk.injEq, Prod.mk.injEq] at heq
        obtain ⟨rfl, rfl, rfl⟩ := heq
        exact ⟨rfl, rfl, h1, h2, fun k _ => rfl,
          fun hb => absurd hb (by decide)⟩
      | succ f2 =>
        have hpre2 : ∀ k x, k < j → q[k]? = some x →
            x.granted = true ∧ inactive env x.txnId = false := by
          intro k x hk hkx
          exact ⟨hpre k x hk hkx, hA x (mem_of_opt q k x hkx)⟩
        have hgrant := tryGrant_on_granted_run env f2 q j r hj hgr hpre2
        by_cases hco : ((q.take j).map (fun r => r.mode)).all
            (fun m => canCoexist m r.mode) = true
        · rw [if_pos hco] at hgrant
          rw [hgrant] at heq
          rw [if_pos (show ((setGrantedAt q j, true) :
              List Request × Bool).2 = true from rfl)] at heq
          have hsi := setGrantedAt_inv env q j r hA h1 h2 hj hgr hpre (by
            intro m hm
            exact List.all_eq_true.mp hco m hm)
          obtain ⟨hA2, h1q, h2q, hpreq⟩ := hsi
          have hmap1 := setGrantedAt_map_txnId q j
          have hmap2 := setGrantedAt_map_mode q j
          have hlen2 := setGrantedAt_length q j
          have hms2 : ms ++ [r.mode] =
              ((setGrantedAt q j).take (j + 1)).map (fun r => r.mode) := by
            rw [List.map_take, hmap2, ← List.map_take, List.take_succ, hj]
            simp [hms]
          obtain ⟨m1, m2, g1, g2, hun, hbt⟩ :=
            ih (j + 1) (setGrantedAt q j) (ms ++ [r.mode]) q2 ms2 b hA2 h1q
              h2q hpreq hms2 (by rw [hlen2]; omega) heq
          refine ⟨?_, ?_, g1, g2, ?_, ?_⟩
          · rw [m1, hmap1]
          · rw [m2, hmap2]
          · intro k hk
            rw [hun k (by omega), setGrantedAt_opt q j r hj k,
              if_neg (by omega)]
          · intro hb
            obtain ⟨hp, hm⟩ := hbt hb
            refine ⟨fun k x hk hx => hp k x (by omega) hx, ?_⟩
            rw [show j + (c + 1) = (j + 1) + c from by omega]
            exact hm
        · rw [if_neg hco] at hgrant
          rw [hgrant] at heq
          rw [if_neg (by simp : ¬(((q, false) :
              List Request × Bool).2 = true))] at heq
          have heq2 : ((q : List Request), ms, (false : Bool)) =
              (q2, ms2, b) := heq
          rw [Prod.mk.injEq, Prod.mk.injEq] at heq2
          obtain ⟨rfl, rfl, rfl⟩ := heq2
          exact ⟨rfl, rfl, h1, h2, fun k _ => rfl,
            fun hb => absurd hb (by decide)⟩

end LockMgr

namespace LockMgr

lemma tryGrant_inv (env : Env) (f : Nat) (q : List Request) (i : Nat)
    (hA : AllActive env q) (h1 : GrantedFirst q) (h2 : GrantedCompat q) :
    AllActive env (tryGrant env f q i).1 ∧
      GrantedFirst (tryGrant env f q i).1 ∧
      GrantedCompat (tryGrant env f q i).1 := by
  cases f with
  | zero => exact ⟨hA, h1, h2⟩
  | succ f =>
    rcases hi : q[i]? with _ | r
    · rw [show tryGrant env (f + 1) q i = (q, false) from by
        simp [tryGrant, hi]]
      exact ⟨hA, h1, h2⟩
    · cases hgr : r.granted with
      | true =>
        rw [show tryGrant env (f + 1) q i = (q, true) from by
          simp [tryGrant, hi, hgr]]
        exact ⟨hA, h1, h2⟩
      | false =>
        rcases hloop : tgLoop (tryGrant env f) env i 0 q [] with ⟨qq, msq, bb⟩
        have hilt : i < q.length := (List.getElem?_eq_some.mp hi).1
        obtain ⟨m1, m2, g1, g2, hun, hbt⟩ :=
          tgLoop_main env f i 0 q [] qq msq bb hA h1 h2
            (fun k x hk _ => absurd hk (Nat.not_lt_zero k)) (by simp)
            (by omega) hloop
        simp only [Nat.zero_add] at hun hbt
        have hA2 : AllActive env qq := allActive_of_map_eq env q qq m1 hA
        cases bb with
        | false =>
          rw [show tryGrant env (f + 1) q i = (qq, false) from by
            simp [tryGrant, hi, hgr, hloop]]
          exact ⟨hA2, g1, g2⟩
        | true =>
          obtain ⟨hp, hm⟩ := hbt rfl
          by_cases hco : msq.all (fun m => canCoexist m r.mode) = true
          · rw [show tryGrant env (f + 1) q i = (setGrantedAt qq i, true)
              from by simp [tryGrant, hi, hgr, hloop, hco]]
            have hqi : qq[i]? = some r := by
              rw [hun i (by omega)]
              exact hi
            have hsi := setGrantedAt_inv env qq i r hA2 g1 g2 hqi hgr
              (fun k x hk hx => hp k x (by omega) hx) (by
                intro m hmm
                refine List.all_eq_true.mp hco m ?_
                rw [hm]
                exact hmm)
            exact ⟨hsi.1, hsi.2.1, hsi.2.2.1⟩
          · rw [show tryGrant env (f + 1) q i = (qq, false) from by
              simp [tryGrant, hi, hgr, hloop, hco]]
            exact ⟨hA2, g1, g2⟩

end LockMgr

namespace LockMgr

lemma inactive_cons (t : Int) (s : TransactionState) (env : Env) (x : Int) :
    inactive ((t, s) :: env) x =
      if t = x then
        (s == TransactionState.ABORTED || s == TransactionState.COMMITTED)
      else inactive env x := by
  by_cases h : t = x <;> simp [inactive, stateOf, LRUK.alookup, h]

lemma qInv_append (env : Env) (q : List Request) (t : Int) (m : LockMode)
    (hI : QInv env q) (ht : inactive env t = false) :
    QInv env (q ++ [⟨t, m, false⟩]) := by
  obtain ⟨hA, h1, h2⟩ := hI
  refine ⟨?_, ?_, ?_⟩
  · intro r hr
    rcases List.mem_append.mp hr with h | h
    · exact hA r h
    · rcases List.mem_singleton.mp h with rfl
      exact ht
  · refine List.pairwise_append.mpr ⟨h1, List.pairwise_singleton _ _, ?_⟩
    intro a _ b hb
    rcases List.mem_singleton.mp hb with rfl
    intro hgb
    exact absurd hgb (by simp)
  · refine List.pairwise_append.mpr ⟨h2, List.pairwise_singleton _ _, ?_⟩
    intro a _ b hb
    rcases List.mem_singleton.mp hb with rfl
    intro _ hgb
    exact absurd hgb (by simp)

lemma qInv_filter (env : Env) (q : List Request) (p : Request → Bool)
    (hI : QInv env q) : QInv env (q.filter p) :=
  ⟨fun r hr => hI.1 r (List.mem_filter.mp hr).1,
    List.Pairwise.filter p hI.2.1, List.Pairwise.filter p hI.2.2⟩

lemma qInv_finish (env : Env) (q : List Request) (t : Int)
    (s : TransactionState) (hI : QInv env q) :
    QInv ((t, s) :: env) (removeReqsOf q t) := by
  obtain ⟨hA, h1, h2⟩ := hI
  refine ⟨?_, List.Pairwise.filter _ h1, List.Pairwise.filter _ h2⟩
  intro r hr
  have hne : r.txnId ≠ t := by
    have := List.of_mem_filter hr
    simpa using this
  rw [inactive_cons, if_neg (fun he => hne he.symm)]
  exact hA r (List.mem_filter.mp hr).1

lemma qInv_shrink (env : Env) (q : List Request) (t : Int) (hI : QInv env q) :
    QInv ((t, TransactionState.SHRINKING) :: env) q := by
  obtain ⟨hA, h1, h2⟩ := hI
  refine ⟨?_, h1, h2⟩
  intro r hr
  rw [inactive_cons]
  by_cases h : t = r.txnId
  · rw [if_pos h]
    rfl
  · rw [if_neg h]
    exact hA r hr

lemma qInv_insert_upgrade (env : Env) (req : Request)
    (hg : req.granted = false) (ht : inactive env req.txnId = false) :
    ∀ l : List Request, QInv env l → QInv env (insertAtFirstUngranted l req) := by
  intro l
  induction l with
  | nil =>
    intro _
    refine ⟨?_, List.pairwise_singleton _ _, List.pairwise_singleton _ _⟩
    intro r hr
    rcases List.mem_singleton.mp hr with rfl
    exact ht
  | cons r rest ih =>
    intro hI
    obtain ⟨hA, h1, h2⟩ := hI
    have hrestI : QInv env rest :=
      ⟨fun x hx => hA x (List.mem_cons_of_mem r hx),
        List.Pairwise.of_cons h1, List.Pairwise.of_cons h2⟩
    cases hgr : r.granted with
    | true =>
      rw [show insertAtFirstUngranted (r :: rest) req =
          r :: insertAtFirstUngranted rest req from by
        simp [insertAtFirstUngranted, hgr]]
      obtain ⟨hA2, h12, h22⟩ := ih hrestI
      refine ⟨?_, ?_, ?_⟩
      · intro x hx
        rcases List.mem_cons.mp hx with rfl | hx
        · exact hA _ (List.mem_cons_self _ _)
        · exact hA2 x hx
      · refine List.Pairwise.cons ?_ h12
        intro x _ _
        exact hgr
      · refine List.Pairwise.cons ?_ h22
        intro x hx hrg hxg
        rcases mem_insertAtFirstUngranted rest req x hx with rfl | hx2
        · rw [hg] at hxg
          exact absurd hxg (by decide)
        · exact List.rel_of_pairwise_cons h2 hx2 hrg hxg
    | false =>
      rw [show insertAtFirstUngranted (r :: rest) req = req :: r :: rest from by
        simp [insertAtFirstUngranted, hgr]]
      refine ⟨?_, ?_, ?_⟩
      · intro x hx
        rcases List.mem_cons.mp hx with rfl | hx
        · exact ht
        · exact hA x hx
      · refine List.Pairwise.cons ?_ h1
        intro x hx hxg
        exfalso
        rcases List.mem_cons.mp hx with rfl | hx2
        · rw [hgr] at hxg
          exact absurd hxg (by decide)
        · have hrg : r.granted = true := List.rel_of_pairwise_cons h1 hx2 hxg
          rw [hgr] at hrg
          exact absurd hrg (by decide)
      · refine List.Pairwise.cons ?_ h2
        intro x _ hreqg _
        exfalso
        rw [hg] at hreqg
        exact absurd hreqg (by decide)

lemma stepA_inv (s s2 : Env × List Request) (h : StepA s s2)
    (hI : QInv s.1 s.2) : QInv s2.1 s2.2 := by
  cases h with
  | newBucket env t m h =>
    refine ⟨?_, List.pairwise_singleton _ _, List.pairwise_singleton _ _⟩
    intro r hr
    rcases List.mem_singleton.mp hr with rfl
    exact h
  | request env q t m h =>
    have hI2 := qInv_append env q t m hI h
    obtain ⟨hA, h1, h2⟩ := hI2
    exact tryGrant_inv env (q.length + 2) (q ++ [⟨t, m, false⟩]) q.length
      hA h1 h2
  | wake env q i =>
    obtain ⟨hA, h1, h2⟩ := hI
    exact tryGrant_inv env (q.length + 1) q i hA h1 h2
  | unlock env q t => exact qInv_filter _ _ _ hI
  | finish env q t s h => exact qInv_finish env q t s hI
  | shrink env q t => exact qInv_shrink env q t hI
  | upgrade env q t m h =>
    have hI1 : QInv env (removeReqsOf q t) := qInv_filter _ _ _ hI
    have hI2 := qInv_insert_upgrade env ⟨t, m, false⟩ rfl h
      (removeReqsOf q t) hI1
    obtain ⟨hA, h1, h2⟩ := hI2
    exact tryGrant_inv env (q.length + 2) _ _ hA h1 h2

lemma reachA_inv (s : Env × List Request) (h : ReachA s) : QInv s.1 s.2 := by
  induction h with
  | init =>
    exact ⟨fun r hr => absurd hr (List.not_mem_nil r),
      List.Pairwise.nil, List.Pairwise.nil⟩
  | step s s2 h1 h2 ih => exact stepA_inv s s2 h2 ih

end LockMgr

namespace LockMgr

instance (q : List Request) : Decidable (GrantedFirst q) := by
  unfold GrantedFirst
  infer_instance

instance (q : List Request) : Decidable (GrantedCompat q) := by
  unfold GrantedCompat
  infer_instance

/-- Claim C8 as stated is false: transaction 1 acquires X (granted); its
state then becomes COMMITTED while its request is still queued (the state
transition and the queue cleanup are separate operations); transaction 2
then requests X, and `TryGrantLock` skips the COMMITTED holder when
collecting the modes to check compatibility against, so it grants the
second X — the queue now holds two granted, mutually incompatible X
requests. -/
theorem c8_counterexample : ¬ C8Claim := by
  intro h
  have hr := ReachF.step _ _ (ReachF.step _ _ (ReachF.step _ _ ReachF.init
      (StepF.newBucket [] 1 LockMode.EXCLUSIVE))
      (StepF.setState [] [⟨1, LockMode.EXCLUSIVE, true⟩] 1
        TransactionState.COMMITTED (by decide)))
      (StepF.request [(1, TransactionState.COMMITTED)]
        [⟨1, LockMode.EXCLUSIVE, true⟩] 2 LockMode.EXCLUSIVE (by decide))
  have h2 := (h _ _ hr).2
  revert h2
  decide

/-- Amended claim C8: the invariant does hold for every queue reachable
when a transaction enters ABORTED or COMMITTED only together with the
removal of its requests from the queue (`StepA.finish`), i.e. when no stale
request of a dead transaction is left behind: after every such operation
the granted requests form a prefix of the queue and are pairwise
compatible. -/
theorem c8_queue_invariant_amended (e : Env) (q : List Request)
    (h : ReachA (e, q)) : GrantedFirst q ∧ GrantedCompat q :=
  ⟨(reachA_inv (e, q) h).2.1, (reachA_inv (e, q) h).2.2⟩

/-- Witness for the amended C8 at a concrete two-operation history:
transaction 1 takes X on a fresh queue, then transaction 2 requests S and
is queued ungranted behind the X holder. -/
theorem c8_queue_invariant_amended_witness :
    ReachA ([], (tryGrant [] 3
        ([⟨1, LockMode.EXCLUSIVE, true⟩] ++ [⟨2, LockMode.SHARED, false⟩])
        1).1) ∧
      (GrantedFirst (tryGrant [] 3
          ([⟨1, LockMode.EXCLUSIVE, true⟩] ++ [⟨2, LockMode.SHARED, false⟩])
          1).1 ∧
        GrantedCompat (tryGrant [] 3
          ([⟨1, LockMode.EXCLUSIVE, true⟩] ++ [⟨2, LockMode.SHARED, false⟩])
          1).1) :=
  have hr : ReachA ([], (tryGrant [] 3
      ([⟨1, LockMode.EXCLUSIVE, true⟩] ++ [⟨2, LockMode.SHARED, false⟩])
      1).1) :=
    ReachA.step _ _ (ReachA.step _ _ ReachA.init
      (StepA.newBucket [] 1 LockMode.EXCLUSIVE (by decide)))
      (StepA.request [] [⟨1, LockMode.EXCLUSIVE, true⟩] 2 LockMode.SHARED
        (by decide))
  ⟨hr, c8_queue_invariant_amended [] _ hr⟩

end LockMgr

/-! ## Section: the extendible hash table (C9)

Shallow embedding of `src/container/hash/extendible_hash_table.cpp` at the
instantiation `ExtendibleHashTable<int, int>` (`std::hash<int>` is the
identity on non-negative keys).  The C++ directory holds `shared_ptr`s with
aliasing, so buckets live in a heap (`buckets`, addressed by index) and the
directory stores bucket indices (`none` models the null pointers that
`dir_.resize` introduces). -/

namespace EHash

/-- A `Bucket`: capacity `size_`, local depth `depth_`, and the item list
`list_`. -/
structure Bucket where
  size : Nat
  depth : Nat
  items : List (Nat × Int)
deriving DecidableEq, Repr

/-- `Bucket::IsFull`: `list_.size() == size_`. -/
def isFull (b : Bucket) : Bool := b.items.length == b.size

/-- `Bucket::IsOverFlow`: `list_.size() > size_`. -/
def isOverFlow (b : Bucket) : Bool := decide (b.size < b.items.length)

/-- `Bucket::Find`: value of the first pair with the given key. -/
def bucketFind (b : Bucket) (k : Nat) : Option Int :=
  (b.items.find? (fun p => p.1 == k)).map (fun p => p.2)

/-- In-place `it->second = value` on the first pair with the given key. -/
def updValue : List (Nat × Int) → Nat → Int → List (Nat × Int)
  | [], _, _ => []
  | p :: rest, k, v =>
      if p.1 == k then (p.1, v) :: rest else p :: updValue rest k v

/-- `Bucket::Insert`: update the value on a duplicate key; otherwise fail on
a full bucket; otherwise push the pair at the back. -/
def bucketInsert (b : Bucket) (k : Nat) (v : Int) : Bucket × Bool :=
  if (b.items.find? (fun p => p.1 == k)).isSome then
    (⟨b.size, b.depth, updValue b.items k v⟩, true)
  else if isFull b then (b, false)
  else (⟨b.size, b.depth, b.items ++ [(k, v)]⟩, true)

/-- `Bucket::Remove`: erase the first pair with the given key. -/
def bucketRemove (b : Bucket) (k : Nat) : Bucket × Bool :=
  if (b.items.find? (fun p => p.1 == k)).isSome then
    (⟨b.size, b.depth, b.items.eraseP (fun p => p.1 == k)⟩, true)
  else (b, false)

/-- The table: global depth, bucket capacity, bucket count, the directory
(bucket indices, `none` for null), and the bucket heap. -/
structure EHT where
  globalDepth : Nat
  bucketSize : Nat
  numBuckets : Nat
  dir : List (Option Nat)
  buckets : List Bucket
deriving Repr

/-- `ExtendibleHashTable(bucket_size)`: one empty bucket of local depth 0,
global depth 0. -/
def newEHT (bucketSize : Nat) : EHT :=
  ⟨0, bucketSize, 1, [some 0], [⟨bucketSize, 0, []⟩]⟩

/-- `IndexOf`: `hash(key) & ((1 << global_depth_) - 1)`. -/
def indexOf (gd : Nat) (key : Nat) : Nat := Nat.land key (2 ^ gd - 1)

/-- `LowBitEquals`: the low `n` bits agree. -/
def lowBitEquals (i1 i2 n : Nat) : Bool :=
  Nat.land i1 (2 ^ n - 1) == Nat.land i2 (2 ^ n - 1)

/-- `Find`: hash to a directory slot, then search that bucket. -/
def find (ht : EHT) (k : Nat) : Option Int := do
  let slot ← ht.dir[indexOf ht.globalDepth k]?
  let bIdx ← slot
  let b ← ht.buckets[bIdx]?
  bucketFind b k

/-- `Remove`: hash to a directory slot, then remove from that bucket (the
heap cell is updated in place). -/
def remove (ht : EHT) (k : Nat) : Option (EHT × Bool) := do
  let slot ← ht.dir[indexOf ht.globalDepth k]?
  let bIdx ← slot
  let b ← ht.buckets[bIdx]?
  let (b2, ok) := bucketRemove b k
  pure (⟨ht.globalDepth, ht.bucketSize, ht.numBuckets,
    ht.dir, ht.buckets.set bIdx b2⟩, ok)

/-- `SplitBucket`, on the bucket at directory slot `rawIdx`.  Mirrors the
C++ statement for statement: optional directory doubling (new slots null),
`IncrementDepth`, creation of the new bucket, the move of the items whose
index no longer matches on `new_local_depth` bits — through the
capacity-checked `Bucket::Insert`, whose return value the code ignores —
removal of the moved keys from the old bucket, the directory reassignment
loop, `num_buckets_++`, and the overflow-driven recursion (bounded here by
`fuel`; the C++ recursion is unbounded). -/
def splitBucket : Nat → EHT → Nat → Option EHT
  | 0, _, _ => none
  | fuel + 1, ht, rawIdx => do
    let slot ← ht.dir[rawIdx]?
    let bIdx ← slot
    let b ← ht.buckets[bIdx]?
    let resize := b.depth == ht.globalDepth
    let dir1 := if resize then
        ht.dir ++ List.replicate ht.dir.length none
      else ht.dir
    let gd1 := if resize then ht.globalDepth + 1 else ht.globalDepth
    let newLd := b.depth + 1
    let newBIdx := ht.buckets.length
    let moved := b.items.foldl
      (fun (acc : Bucket × List Nat) elem =>
        if !(lowBitEquals (indexOf gd1 elem.1) rawIdx newLd) then
          ((bucketInsert acc.1 elem.1 elem.2).1, acc.2 ++ [elem.1])
        else acc)
      (⟨ht.bucketSize, newLd, []⟩, [])
    let newB := moved.1
    let b2 : Bucket :=
      ⟨b.size, newLd,
        moved.2.foldl (fun its k => its.eraseP (fun p => p.1 == k)) b.items⟩
    let dir2 := (List.range dir1.length).map (fun i =>
      if !(lowBitEquals i rawIdx (newLd - 1)) then dir1.getD i none
      else if lowBitEquals i rawIdx newLd then some bIdx
      else some newBIdx)
    let newDirIdx := (List.range dir1.length).find? (fun i =>
      lowBitEquals i rawIdx (newLd - 1) && !(lowBitEquals i rawIdx newLd))
    let ht2 : EHT := ⟨gd1, ht.bucketSize, ht.numBuckets + 1, dir2,
      (ht.buckets.set bIdx b2) ++ [newB]⟩
    if isOverFlow b2 then splitBucket fuel ht2 rawIdx
    else if isOverFlow newB then
      match newDirIdx with
      | some i => splitBucket fuel ht2 i
      | none => none
    else pure ht2

/-- `ResetDirectory`: walk the directory; for each not-yet-visited bucket,
point every still-null slot whose low `local_depth` bits match at that
bucket. -/
def resetDirectory (ht : EHT) : EHT :=
  let dirFinal := (List.range ht.dir.length).foldl
    (fun (acc : List (Option Nat) × List Nat) idx =>
      match acc.1.getD idx none with
      | none => acc
      | some bIdx =>
        if bIdx ∈ acc.2 then acc
        else
          let ld := (ht.buckets.getD bIdx ⟨0, 0, []⟩).depth
          let dir2 := (List.range acc.1.length).map (fun j =>
            match acc.1.getD j none with
            | none => if lowBitEquals j idx ld then some bIdx else none
            | some x => some x)
          (dir2, bIdx :: acc.2))
    (ht.dir, [])
  ⟨ht.globalDepth, ht.bucketSize, ht.numBuckets, dirFinal.1, ht.buckets⟩

/-- `Insert`: straight insert into a non-full bucket; update on duplicate
even when full; otherwise push the new pair onto the full bucket's list
directly (`GetItems().push_back`), split, and reset the directory. -/
def insert (fuel : Nat) (ht : EHT) (k : Nat) (v : Int) : Option EHT := do
  let idx := indexOf ht.globalDepth k
  let slot ← ht.dir[idx]?
  let bIdx ← slot
  let b ← ht.buckets[bIdx]?
  if !(isFull b) then
    pure ⟨ht.globalDepth, ht.bucketSize, ht.numBuckets, ht.dir,
      ht.buckets.set bIdx (bucketInsert b k v).1⟩
  else
    let ins := bucketInsert b k v
    if ins.2 then
      pure ⟨ht.globalDepth, ht.bucketSize, ht.numBuckets, ht.dir,
        ht.buckets.set bIdx ins.1⟩
    else
      let b3 : Bucket := ⟨b.size, b.depth, b.items ++ [(k, v)]⟩
      let ht2 : EHT := ⟨ht.globalDepth, ht.bucketSize, ht.numBuckets,
        ht.dir, ht.buckets.set bIdx b3⟩
      let ht3 ← splitBucket fuel ht2 idx
      pure (resetDirectory ht3)

/-- The three-insert run that loses a key: bucket capacity 2, keys 1, 3, 5
(all hashing to the same slot at every relevant depth). -/
def c9run : Option EHT :=
  Option.bind (Option.bind (insert 10 (newEHT 2) 1 7)
    (fun t => insert 10 t 3 8))
    (fun t => insert 10 t 5 9)

end EHash

namespace EHash

/-- C9 fails in the code: with bucket capacity 2 and identity hashing,
after `insert(1,7); insert(3,8); insert(5,9)` a lookup of key 5 reports the
key absent (the other two bindings survive).  `SplitBucket` moves items
into the new bucket through the capacity-checked `Bucket::Insert` and
ignores its return value, so when all three items of the overflowing bucket
move to the same new bucket, the third is silently dropped. -/
theorem c9_splitbucket_loses_key :
    c9run.map (fun t => (find t 1, find t 3, find t 5)) =
      some (some 7, some 8, none) := by decide

end EHash

/-! ## Section: the B+Tree (C2, C4, C10)

Shallow embedding of `src/storage/index/b_plus_tree.cpp`,
`src/storage/page/b_plus_tree_page.cpp` and
`src/storage/index/index_iterator.cpp`, with `Int` keys and values (the
comparator is the integer order).  Pages live in an association list from
page id to page; `-1` is `INVALID_PAGE_ID`; page 0 is `HEADER_PAGE_ID`, the
page the constructor reserves and `InitializeRoot` turns into the first
root leaf.  A leaf page stores its pairs at indices `0..`; an internal page
stores the leftmost pointer (`array[0].second`) in `firstPtr` and the pairs
at indices `1..` in `items` (so `items.length = GetKeyNum()`).  The page
classes themselves (`b_plus_tree_leaf_page` / `b_plus_tree_internal_page`)
are not in the repository snapshot; their `Init` is modelled from the spec
and the callers' comments: a leaf initialises empty with an invalid next
pointer, an internal page initialises with size 1 (no keys). -/

namespace BPTree

/-- A B+Tree page (`BPlusTreePage`, leaf or internal specialisation). -/
inductive BPage where
  | leaf (parentId : Int) (maxSize : Nat) (next : Int)
      (items : List (Int × Int))
  | internal (parentId : Int) (maxSize : Nat) (firstPtr : Int)
      (items : List (Int × Int))
deriving DecidableEq, Repr

/-- `IsLeafPage`. -/
def isLeafP : BPage → Bool
  | BPage.leaf _ _ _ _ => true
  | BPage.internal _ _ _ _ => false

/-- `GetParentPageId`. -/
def parentOf : BPage → Int
  | BPage.leaf p _ _ _ => p
  | BPage.internal p _ _ _ => p

/-- `SetParentPageId`. -/
def setParent : BPage → Int → BPage
  | BPage.leaf _ m nx its, p => BPage.leaf p m nx its
  | BPage.internal _ m f its, p => BPage.internal p m f its

/-- `IsRootPage`: the parent id is invalid. -/
def isRootP (p : BPage) : Bool := parentOf p == -1

/-- `GetMaxSize`. -/
def maxSizeOf : BPage → Nat
  | BPage.leaf _ m _ _ => m
  | BPage.internal _ m _ _ => m

/-- `GetKeyNum`: a leaf counts its pairs; an internal page counts
`size_ - 1` keys (slot 0 has no key). -/
def keyNumP : BPage → Nat
  | BPage.leaf _ _ _ its => its.length
  | BPage.internal _ _ _ its => its.length

/-- `GetMinKeyNum`: `ceil((max-1)/2)` for a leaf and `ceil(max/2) - 1` for
an internal page (`std::ceil` over `double`s in the code; over `Nat`,
`ceil((m-1)/2) = m / 2` and `ceil(m/2) = (m+1) / 2`). -/
def minKeyNumP : BPage → Nat
  | BPage.leaf _ m _ _ => m / 2
  | BPage.internal _ m _ _ => (m + 1) / 2 - 1

/-- `IsFull`: `GetKeyNum() == max_size_ - 1`. -/
def isFullP (p : BPage) : Bool := keyNumP p == maxSizeOf p - 1

/-- `GtHalfFull`: `GetKeyNum() > GetMinKeyNum()`. -/
def gtHalfFullP (p : BPage) : Bool := decide (minKeyNumP p < keyNumP p)

/-- Update (or allocate) the page stored under id `i`. -/
def pset : List (Int × BPage) → Int → BPage → List (Int × BPage)
  | [], i, p => [(i, p)]
  | q :: rest, i, p =>
      if q.1 = i then (i, p) :: rest else q :: pset rest i p

/-- `KeyAt` on a leaf array (0-based). -/
def keyAt0 (items : List (Int × Int)) (i : Int) : Int :=
  (items.getD i.toNat (0, 0)).1

/-- `KeyAt` on an internal array (keys are 1-based). -/
def keyAtIn (items : List (Int × Int)) (i : Int) : Int :=
  (items.getD (i - 1).toNat (0, 0)).1

/-- `ValueAt` on an internal page: index 0 is the leftmost pointer. -/
def valAtIn (firstPtr : Int) (items : List (Int × Int)) (i : Int) : Int :=
  if i = 0 then firstPtr else (items.getD (i - 1).toNat (0, 0)).2

/-- The loop of `SearchLeaf`: binary search for an exact key match on
`[left, right]`, `-1` on failure.  The interval shrinks at every step, so
`fuel = length + 1` never runs out. -/
def searchLeafLoop (items : List (Int × Int)) (key : Int) :
    Nat → Int → Int → Int
  | 0, _, _ => -1
  | fuel + 1, left, right =>
    if left > right then -1
    else
      let mid := (right - left) / 2 + left
      let km := keyAt0 items mid
      if km = key then mid
      else if km > key then searchLeafLoop items key fuel left (mid - 1)
      else searchLeafLoop items key fuel (mid + 1) right

/-- `SearchLeaf`. -/
def searchLeaf (items : List (Int × Int)) (key : Int) : Int :=
  if items.length = 0 then -1
  else searchLeafLoop items key (items.length + 1) 0 ((items.length : Int) - 1)

/-- The loop of `SearchLeafInsert`: first index whose key is `≥ key`,
`key_num` when every key is smaller. -/
def searchLeafInsLoop (items : List (Int × Int)) (key : Int) :
    Nat → Int → Int → Int
  | 0, _, _ => (items.length : Int)
  | fuel + 1, left, right =>
    if left > right then (items.length : Int)
    else
      let mid := (right - left) / 2 + left
      let km := keyAt0 items mid
      if km ≥ key then
        if mid = 0 ∨ keyAt0 items (mid - 1) < key then mid
        else searchLeafInsLoop items key fuel left (mid - 1)
      else searchLeafInsLoop items key fuel (mid + 1) right

/-- `SearchLeafInsert`. -/
def searchLeafIns (items : List (Int × Int)) (key : Int) : Int :=
  if items.length = 0 then -1
  else searchLeafInsLoop items key (items.length + 1) 0
    ((items.length : Int) - 1)

/-- The loop of `SearchInternal`: first (1-based) index whose key is
`≥ key`, 0 when every key is smaller. -/
def searchInternalLoop (items : List (Int × Int)) (key : Int) :
    Nat → Int → Int → Int
  | 0, _, _ => 0
  | fuel + 1, left, right =>
    if left > right then 0
    else
      let mid := (right - left) / 2 + left
      let km := keyAtIn items mid
      if km ≥ key then
        if mid = 1 ∨ keyAtIn items (mid - 1) < key then mid
        else searchInternalLoop items key fuel left (mid - 1)
      else searchInternalLoop items key fuel (mid + 1) right

/-- `SearchInternal`. -/
def searchInternal (items : List (Int × Int)) (key : Int) : Int :=
  searchInternalLoop items key (items.length + 1) 1 (items.length : Int)

/-- The loop of `SearchInternalAccuracy`: exact (1-based) key match, `-1`
on failure. -/
def searchInternalAccLoop (items : List (Int × Int)) (key : Int) :
    Nat → Int → Int → Int
  | 0, _, _ => -1
  | fuel + 1, left, right =>
    if left > right then -1
    else
      let mid := (right - left) / 2 + left
      let km := keyAtIn items mid
      if km = key then mid
      else if km > key then searchInternalAccLoop items key fuel left (mid - 1)
      else searchInternalAccLoop items key fuel (mid + 1) right

/-- `SearchInternalAccuracy`. -/
def searchInternalAcc (items : List (Int × Int)) (key : Int) : Int :=
  searchInternalAccLoop items key (items.length + 1) 1 (items.length : Int)

/-- The loop of `SearchInternalFind`: last (1-based) index whose key is
`≤ key`, 0 when every key is greater. -/
def searchInternalFindLoop (items : List (Int × Int)) (key : Int) :
    Nat → Int → Int → Int
  | 0, _, _ => 0
  | fuel + 1, left, right =>
    if left > right then 0
    else
      let mid := (right - left) / 2 + left
      let km := keyAtIn items mid
      if km ≤ key then
        if mid = (items.length : Int) ∨ keyAtIn items (mid + 1) > key then mid
        else searchInternalFindLoop items key fuel (mid + 1) right
      else searchInternalFindLoop items key fuel left (mid - 1)

/-- `SearchInternalFind`. -/
def searchInternalFind (items : List (Int × Int)) (key : Int) : Int :=
  searchInternalFindLoop items key (items.length + 1) 1 (items.length : Int)

/-- The search loop of `InsertLeaf`: first index whose key is `> key` (with
predecessor `≤ key`), `key_num` by default. -/
def insertLeafIdxLoop (items : List (Int × Int)) (key : Int) :
    Nat → Int → Int → Int
  | 0, _, _ => (items.length : Int)
  | fuel + 1, left, right =>
    if left > right then (items.length : Int)
    else
      let mid := (right - left) / 2 + left
      let km := keyAt0 items mid
      if km > key then
        if mid = 0 ∨ keyAt0 items (mid - 1) ≤ key then mid
        else insertLeafIdxLoop items key fuel left (mid - 1)
      else insertLeafIdxLoop items key fuel (mid + 1) right

/-- Array insertion at an index (the C++ shift loop on the page array). -/
def insertPairAt (items : List (Int × Int)) (idx : Nat) (pair : Int × Int) :
    List (Int × Int) :=
  items.take idx ++ [pair] ++ items.drop idx

/-- `InsertLeaf`: place the pair at the position found by the binary
search (an empty page receives it at index 0). -/
def insertLeaf (items : List (Int × Int)) (pair : Int × Int) :
    List (Int × Int) :=
  if items.length = 0 then [pair]
  else
    insertPairAt items
      (insertLeafIdxLoop items pair.1 (items.length + 1) 0
        ((items.length : Int) - 1)).toNat pair

end BPTree

namespace BPTree

/-- `SplitLeaf` on the item lists: simulate the insertion of the new pair
into the full array (the element shifted off the end lands in
`overflow_pair`), keep the first `leave_num = ceil(max/2)` entries — with
`std::ceil` applied to the already-truncated `int` division `max / 2` — and
copy the rest (overflow pair last) into the new page.  Returns (old items,
new items). -/
def splitLeafItems (leafMax : Nat) (items : List (Int × Int))
    (pair : Int × Int) : List (Int × Int) × List (Int × Int) :=
  let leaveNum := leafMax / 2
  let n := items.length
  let insertIdx := (searchLeafIns items pair.1).toNat
  let sim := insertPairAt items insertIdx pair
  let phys := sim.take n
  let overflow := sim.getD n (0, 0)
  let sizeChange := n + 1 - leaveNum
  let newItems := (List.range sizeChange).map (fun i =>
    if i + leaveNum = n then overflow else phys.getD (i + leaveNum) (0, 0))
  (phys.take leaveNum, newItems)

/-- `InsertInternalPage` on a non-full internal page (the null/full guards
stay at the caller): a fresh page (no keys) receives the key at slot 1 and
the old child as leftmost pointer; otherwise the pair goes to the slot
found by `SearchInternal` (0 meaning: at the end). -/
def insertInternalPage (oldPageId : Int) (key : Int) (newPageId : Int)
    (firstPtr : Int) (items : List (Int × Int)) :
    Int × List (Int × Int) :=
  if items.length = 0 then (oldPageId, [(key, newPageId)])
  else
    let idx0 := searchInternal items key
    let n := (items.length : Int)
    let idx := if idx0 = 0 then n + 1 else idx0
    (firstPtr, insertPairAt items (idx - 1).toNat (key, newPageId))

/-- `SplitInternal` on the arrays: simulate inserting the pair among the
keys (1-based, with an overflow slot), split at
`split_idx = ceil((max + 1) / 2)` (again `std::ceil` of an `int`
division), post the key at `split_idx` to the caller, keep keys
`1..split_idx-1` in the old page, move keys `split_idx+1..` (and the split
slot's pointer as new leftmost pointer) to the new page.  Returns
(old items, new first pointer, new items, posted key). -/
def splitInternalItems (internalMax : Nat) (items : List (Int × Int))
    (pair : Int × Int) :
    List (Int × Int) × Int × List (Int × Int) × Int :=
  let n := items.length
  let idx0 := searchInternal items pair.1
  let idx := (if idx0 = 0 then (n : Int) + 1 else idx0).toNat
  let sim := insertPairAt items (idx - 1) pair
  let splitIdx := (internalMax + 1) / 2
  let returnKey := (sim.getD (splitIdx - 1) (0, 0)).1
  let newFirstPtr := (sim.getD (splitIdx - 1) (0, 0)).2
  let newItems := sim.drop splitIdx
  (sim.take (splitIdx - 1), newFirstPtr, newItems, returnKey)

/-- The B+Tree bookkeeping (`BPlusTree` members): root page id, the two
fanout limits, the page heap, and the allocator for `NewWritePageGuarded`
(page 0 is reserved by the constructor). -/
structure BPT where
  rootPageId : Int
  leafMax : Nat
  internalMax : Nat
  pages : List (Int × BPage)
  nextPageId : Int
deriving Repr

/-- A fresh tree: empty root id, no pages, ids from 1 (the constructor
reserved page 0 for the future root). -/
def newBPT (leafMax internalMax : Nat) : BPT :=
  ⟨-1, leafMax, internalMax, [], 1⟩

/-- Reparent the children reachable from an internal page's pointers
(the loops at the end of `SplitInternal` and `InternalMerge`). -/
def reparentChildren (pages : List (Int × BPage)) (childIds : List Int)
    (newParent : Int) : List (Int × BPage) :=
  childIds.foldl (fun ps cid =>
    match LRUK.alookup ps cid with
    | none => ps
    | some cp => pset ps cid (setParent cp newParent)) pages

/-- `SearchBPlusTree`: descend through `SearchInternalFind` to a leaf and
look the key up there. -/
def searchTree (pages : List (Int × BPage)) (key : Int) :
    Nat → Int → Option Int
  | 0, _ => none
  | fuel + 1, pageId =>
    if pageId = -1 then none
    else
      match LRUK.alookup pages pageId with
      | none => none
      | some (BPage.leaf _ _ _ items) =>
        let idx := searchLeaf items key
        if idx = -1 then none
        else some (items.getD idx.toNat (0, 0)).2
      | some (BPage.internal _ _ firstPtr items) =>
        let tgt := searchInternalFind items key
        searchTree pages key fuel (valAtIn firstPtr items tgt)

end BPTree

namespace BPTree

/-- `InsertStatus`. -/
inductive InsStatus where
  | success
  | failed
  | leafSplit
  | internalSplit
deriving DecidableEq, Repr

/-- The recursive `Insert(key, value, page_id, parent_page_id)`.  The third
component models the `splitted_` member: the (key, new page id) pair a
split posts to the caller.  `fuel` bounds the recursion depth (the C++
recursion descends one level per call). -/
def insertRec (key value : Int) :
    Nat → BPT → Int → Int → BPT × InsStatus × Option (Int × Int)
  | 0, t, _, _ => (t, InsStatus.failed, none)
  | fuel + 1, t, pageId, parentPageId =>
    if pageId = -1 then (t, InsStatus.failed, none)
    else
      match LRUK.alookup t.pages pageId with
      | none => (t, InsStatus.failed, none)
      | some (BPage.leaf lpar lmax lnext litems) =>
        let findIdx := searchLeaf litems key
        if findIdx ≠ -1 then (t, InsStatus.failed, none)
        else if !(isFullP (BPage.leaf lpar lmax lnext litems)) then
          (⟨t.rootPageId, t.leafMax, t.internalMax,
            pset t.pages pageId
              (BPage.leaf lpar lmax lnext (insertLeaf litems (key, value))),
            t.nextPageId⟩, InsStatus.success, none)
        else
          let newPageId := t.nextPageId
          let split := splitLeafItems lmax litems (key, value)
          let oldLeaf := BPage.leaf lpar lmax newPageId split.1
          let newLeaf := BPage.leaf parentPageId lmax lnext split.2
          let pages1 := pset (pset t.pages pageId oldLeaf) newPageId newLeaf
          if lpar = -1 then
            let newRootId := newPageId + 1
            let root0 := insertInternalPage pageId (keyAt0 split.2 0)
              newPageId (-1) []
            let rootPage := BPage.internal (-1) t.internalMax root0.1 root0.2
            let pages2 := pset pages1 newRootId rootPage
            let pages3 := pset
              (pset pages2 pageId (setParent oldLeaf newRootId))
              newPageId (setParent newLeaf newRootId)
            (⟨newRootId, t.leafMax, t.internalMax, pages3, newPageId + 2⟩,
              InsStatus.leafSplit, none)
          else
            (⟨t.rootPageId, t.leafMax, t.internalMax, pages1, newPageId + 1⟩,
              InsStatus.leafSplit, some (keyAt0 split.2 0, newPageId))
      | some (BPage.internal ipar imax ifirst iitems) =>
        let tgt := searchInternalFind iitems key
        let childId := valAtIn ifirst iitems tgt
        match insertRec key value fuel t childId pageId with
        | (t2, InsStatus.success, _) => (t2, InsStatus.success, none)
        | (t2, InsStatus.failed, _) => (t2, InsStatus.failed, none)
        | (t2, _, none) => (t2, InsStatus.failed, none)
        | (t2, _, some (k2, newId2)) =>
          match LRUK.alookup t2.pages pageId with
          | none => (t2, InsStatus.failed, none)
          | some (BPage.leaf _ _ _ _) => (t2, InsStatus.failed, none)
          | some (BPage.internal par2 max2 first2 items2) =>
            if !(isFullP (BPage.internal par2 max2 first2 items2)) then
              let ins := insertInternalPage (-1) k2 newId2 first2 items2
              (⟨t2.rootPageId, t2.leafMax, t2.internalMax,
                pset t2.pages pageId (BPage.internal par2 max2 ins.1 ins.2),
                t2.nextPageId⟩, InsStatus.success, none)
            else
              let newIId := t2.nextPageId
              let sp := splitInternalItems max2 items2 (k2, newId2)
              let oldI := BPage.internal par2 max2 first2 sp.1
              let newI := BPage.internal parentPageId max2 sp.2.1 sp.2.2.1
              let pages1 := pset (pset t2.pages pageId oldI) newIId newI
              let childIds := sp.2.1 :: (sp.2.2.1.map (fun q => q.2))
              let pages2 := reparentChildren pages1 childIds newIId
              if par2 = -1 then
                let newRootId := newIId + 1
                let root0 := insertInternalPage pageId sp.2.2.2 newIId (-1) []
                let rootPage :=
                  BPage.internal (-1) t2.internalMax root0.1 root0.2
                let pages3 := pset pages2 newRootId rootPage
                let pages4 :=
                  match LRUK.alookup pages3 pageId with
                  | some pg => pset pages3 pageId (setParent pg newRootId)
                  | none => pages3
                let pages5 :=
                  match LRUK.alookup pages4 newIId with
                  | some pg => pset pages4 newIId (setParent pg newRootId)
                  | none => pages4
                (⟨newRootId, t2.leafMax, t2.internalMax, pages5, newIId + 2⟩,
                  InsStatus.internalSplit, none)
              else
                (⟨t2.rootPageId, t2.leafMax, t2.internalMax, pages2,
                  newIId + 1⟩,
                  InsStatus.internalSplit, some (sp.2.2.2, newIId))

/-- The public `Insert`: initialise the root leaf on an empty tree; return
false when the key is already present; otherwise run the recursive insert
and return true whatever its status. -/
def insert (fuel : Nat) (t : BPT) (key value : Int) : BPT × Bool :=
  let t1 := if t.rootPageId = -1 then
      (⟨0, t.leafMax, t.internalMax,
        pset t.pages 0 (BPage.leaf (-1) t.leafMax (-1) []),
        t.nextPageId⟩ : BPT)
    else t
  if (searchTree t1.pages key fuel t1.rootPageId).isSome then (t1, false)
  else ((insertRec key value fuel t1 t1.rootPageId (-1)).1, true)

end BPTree

namespace BPTree

/-- `RemoveStatus`. -/
inductive RmStatus where
  | success
  | failed
  | leafBorrowed
  | leafMerged
  | internalMerged
deriving DecidableEq, Repr

/-- `LeafBorrowStatus`. -/
inductive LBStatus where
  | borrowLeft
  | borrowRight
  | failedBorrow
deriving DecidableEq, Repr

/-- `FindTargetValue`: the last directory slot (0-based over `GetSize()`
pointers) holding `childId`, `-1` when absent. -/
def findTargetValue (firstPtr : Int) (items : List (Int × Int))
    (childId : Int) : Int :=
  (List.range (items.length + 1)).foldl (fun acc i =>
    if valAtIn firstPtr items (i : Int) = childId then (i : Int) else acc) (-1)

/-- `GetSiblings`: the page ids adjacent to `childId` under its parent
(`-1` for a missing side). -/
def getSiblings (firstPtr : Int) (items : List (Int × Int)) (childId : Int) :
    Int × Int :=
  let n := (items.length : Int) + 1
  let tgt := findTargetValue firstPtr items childId
  if tgt = -1 then (-1, -1)
  else if tgt = 0 then (-1, valAtIn firstPtr items 1)
  else if tgt = n - 1 then (valAtIn firstPtr items (tgt - 1), -1)
  else (valAtIn firstPtr items (tgt - 1), valAtIn firstPtr items (tgt + 1))

/-- `RemoveOneInternalElem` (in-range guard included): drop the pair at the
1-based index. -/
def removeInternalAt (items : List (Int × Int)) (idx : Int) :
    List (Int × Int) :=
  if 1 ≤ idx ∧ idx ≤ (items.length : Int) then
    items.eraseIdx (idx - 1).toNat
  else items

/-- `SetKeyAt` on an internal page (1-based). -/
def setKeyAtIn (items : List (Int × Int)) (idx : Int) (k : Int) :
    List (Int × Int) :=
  if 1 ≤ idx ∧ idx ≤ (items.length : Int) then
    items.set (idx - 1).toNat (k, (items.getD (idx - 1).toNat (0, 0)).2)
  else items

/-- `LeafBorrow`: borrow one pair from a more-than-half-full sibling leaf
(left's last to the head of the current leaf, else right's first to its
tail).  Returns the updated heap, the status, and the key the caller posts
into the parent. -/
def leafBorrow (pages : List (Int × BPage)) (curId : Int) (sibs : Int × Int) :
    List (Int × BPage) × LBStatus × Int :=
  match LRUK.alookup pages curId with
  | some (BPage.leaf cpar cmax cnext citems) =>
    let leftP := if sibs.1 = -1 then none else LRUK.alookup pages sibs.1
    let rightP := if sibs.2 = -1 then none else LRUK.alookup pages sibs.2
    match leftP, rightP with
    | some (BPage.leaf lp lm ln lits), _ =>
      if gtHalfFullP (BPage.leaf lp lm ln lits) then
        let moving := lits.getD (lits.length - 1) (0, 0)
        let pages2 := pset pages sibs.1 (BPage.leaf lp lm ln lits.dropLast)
        let pages3 := pset pages2 curId
          (BPage.leaf cpar cmax cnext (moving :: citems))
        (pages3, LBStatus.borrowLeft, moving.1)
      else
        match rightP with
        | some (BPage.leaf rp rm rn rits) =>
          if gtHalfFullP (BPage.leaf rp rm rn rits) then
            let moving := rits.getD 0 (0, 0)
            let rits2 := rits.tail
            let pages2 := pset pages sibs.2 (BPage.leaf rp rm rn rits2)
            let pages3 := pset pages2 curId
              (BPage.leaf cpar cmax cnext (citems ++ [moving]))
            (pages3, LBStatus.borrowRight, keyAt0 rits2 0)
          else (pages, LBStatus.failedBorrow, keyAt0 citems 0)
        | _ => (pages, LBStatus.failedBorrow, keyAt0 citems 0)
    | _, some (BPage.leaf rp rm rn rits) =>
      if gtHalfFullP (BPage.leaf rp rm rn rits) then
        let moving := rits.getD 0 (0, 0)
        let rits2 := rits.tail
        let pages2 := pset pages sibs.2 (BPage.leaf rp rm rn rits2)
        let pages3 := pset pages2 curId
          (BPage.leaf cpar cmax cnext (citems ++ [moving]))
        (pages3, LBStatus.borrowRight, keyAt0 rits2 0)
      else (pages, LBStatus.failedBorrow, keyAt0 citems 0)
    | _, _ => (pages, LBStatus.failedBorrow, keyAt0 citems 0)
  | _ => (pages, LBStatus.failedBorrow, 0)

/-- `InternalBorrow`: rotate one key through the parent from a
more-than-half-full sibling internal page, moving the matching child
pointer and reparenting the moved child. -/
def internalBorrow (pages : List (Int × BPage)) (curId parentId : Int)
    (sibs : Int × Int) : List (Int × BPage) × Bool :=
  match LRUK.alookup pages curId, LRUK.alookup pages parentId with
  | some (BPage.internal cpar cmax cfirst citems),
    some (BPage.internal ppar pmax pfirst pitems) =>
    let leftP := if sibs.1 = -1 then none else LRUK.alookup pages sibs.1
    let rightP := if sibs.2 = -1 then none else LRUK.alookup pages sibs.2
    let tryLeft :=
      match leftP with
      | some (BPage.internal lp lm lf lits) =>
        if gtHalfFullP (BPage.internal lp lm lf lits) then
          let removing := lits.getD (lits.length - 1) (0, 0)
          let pages2 := pset pages sibs.1
            (BPage.internal lp lm lf lits.dropLast)
          let parentIdx := findTargetValue pfirst pitems curId
          let parentKey := keyAtIn pitems parentIdx
          let pages3 := pset pages2 parentId
            (BPage.internal ppar pmax pfirst
              (setKeyAtIn pitems parentIdx removing.1))
          let pages4 := pset pages3 curId
            (BPage.internal cpar cmax removing.2
              ((parentKey, cfirst) :: citems))
          let pages5 :=
            match LRUK.alookup pages4 removing.2 with
            | some cp => pset pages4 removing.2 (setParent cp curId)
            | none => pages4
          some pages5
        else none
      | _ => none
    match tryLeft with
    | some pages5 => (pages5, true)
    | none =>
      match rightP with
      | some (BPage.internal rp rm rf rits) =>
        if gtHalfFullP (BPage.internal rp rm rf rits) then
          let removing := rits.getD 0 (0, 0)
          let rits2 := rits.tail
          let parentIdx := findTargetValue pfirst pitems sibs.2
          let parentKey := keyAtIn pitems parentIdx
          let pages2 := pset pages sibs.2
            (BPage.internal rp rm removing.2 rits2)
          let pages3 := pset pages2 parentId
            (BPage.internal ppar pmax pfirst
              (setKeyAtIn pitems parentIdx removing.1))
          let pages4 := pset pages3 curId
            (BPage.internal cpar cmax cfirst (citems ++ [(parentKey, rf)]))
          let pages5 :=
            match LRUK.alookup pages4 rf with
            | some cp => pset pages4 rf (setParent cp curId)
            | none => pages4
          (pages5, true)
        else (pages, false)
      | _ => (pages, false)
  | _, _ => (pages, false)

/-- `LeafMerge` (right into left) plus the parent-entry removal done by the
caller happens at the call sites; this helper only merges the two leaves
and relinks the chain. -/
def leafMerge (pages : List (Int × BPage)) (leftId rightId : Int) :
    List (Int × BPage) :=
  match LRUK.alookup pages leftId, LRUK.alookup pages rightId with
  | some (BPage.leaf lp lm _ lits), some (BPage.leaf _ _ rn rits) =>
    pset pages leftId (BPage.leaf lp lm rn (lits ++ rits))
  | _, _ => pages

/-- `InternalMerge`: pull the separator key down from the parent, append
the right page's leftmost pointer and pairs to the left page, remove the
separator from the parent, and reparent the right page's children. -/
def internalMerge (pages : List (Int × BPage)) (leftId rightId parentId : Int) :
    List (Int × BPage) :=
  match LRUK.alookup pages leftId, LRUK.alookup pages rightId,
      LRUK.alookup pages parentId with
  | some (BPage.internal lp lm lf lits), some (BPage.internal _ _ rf rits),
    some (BPage.internal ppar pmax pfirst pitems) =>
    let parentIdx := findTargetValue pfirst pitems rightId
    let parentKey := keyAtIn pitems parentIdx
    let pages2 := pset pages leftId
      (BPage.internal lp lm lf (lits ++ [(parentKey, rf)] ++ rits))
    let pages3 := pset pages2 parentId
      (BPage.internal ppar pmax pfirst (removeInternalAt pitems parentIdx))
    reparentChildren pages3 (rf :: rits.map (fun q => q.2)) leftId
  | _, _, _ => pages

end BPTree

namespace BPTree

/-- The recursive `Remove(key, page_id, parent_guard)`: a root leaf or
more-than-half-full leaf just deletes (emptying a root leaf empties the
tree); a half-full leaf deletes and then borrows from or merges with a
sibling, fixing the parent; an internal page recurses and, when the child
level merged away one of its keys, restores its own minimum occupancy by
collapsing the root, borrowing, or merging. -/
def removeRec (key : Int) : Nat → BPT → Int → Int → BPT × RmStatus
  | 0, t, _, _ => (t, RmStatus.failed)
  | fuel + 1, t, pageId, parentId =>
    if pageId = -1 then (t, RmStatus.failed)
    else
      match LRUK.alookup t.pages pageId with
      | none => (t, RmStatus.failed)
      | some (BPage.leaf lpar lmax lnext litems) =>
        let pg := BPage.leaf lpar lmax lnext litems
        let idx := searchLeaf litems key
        if isRootP pg || decide (minKeyNumP pg < keyNumP pg) then
          let ok := idx ≠ -1
          let litems2 := if idx = -1 then litems else litems.eraseIdx idx.toNat
          let pages2 := pset t.pages pageId (BPage.leaf lpar lmax lnext litems2)
          let root2 := if lpar = -1 ∧ litems2.length = 0 then -1
            else t.rootPageId
          (⟨root2, t.leafMax, t.internalMax, pages2, t.nextPageId⟩,
            if ok then RmStatus.success else RmStatus.failed)
        else
          let litems2 := if idx = -1 then litems else litems.eraseIdx idx.toNat
          let pages2 := pset t.pages pageId (BPage.leaf lpar lmax lnext litems2)
          match LRUK.alookup pages2 parentId with
          | some (BPage.internal ppar pmax pfirst pitems) =>
            let sibs := getSiblings pfirst pitems pageId
            let br := leafBorrow pages2 pageId sibs
            match br.2.1 with
            | LBStatus.borrowLeft =>
              let pidx := findTargetValue pfirst pitems pageId
              let pages3 := pset br.1 parentId
                (BPage.internal ppar pmax pfirst
                  (setKeyAtIn pitems pidx br.2.2))
              (⟨t.rootPageId, t.leafMax, t.internalMax, pages3, t.nextPageId⟩,
                RmStatus.leafBorrowed)
            | LBStatus.borrowRight =>
              let pidx := findTargetValue pfirst pitems pageId
              let pages3 := pset br.1 parentId
                (BPage.internal ppar pmax pfirst
                  (setKeyAtIn pitems (pidx + 1) br.2.2))
              (⟨t.rootPageId, t.leafMax, t.internalMax, pages3, t.nextPageId⟩,
                RmStatus.leafBorrowed)
            | LBStatus.failedBorrow =>
              if sibs.1 ≠ -1 then
                let pages3 := leafMerge pages2 sibs.1 pageId
                let pidx := findTargetValue pfirst pitems pageId
                let pages4 := pset pages3 parentId
                  (BPage.internal ppar pmax pfirst
                    (removeInternalAt pitems pidx))
                (⟨t.rootPageId, t.leafMax, t.internalMax, pages4,
                  t.nextPageId⟩, RmStatus.leafMerged)
              else
                match LRUK.alookup pages2 sibs.2 with
                | some (BPage.leaf _ _ _ _) =>
                  let pages3 := leafMerge pages2 pageId sibs.2
                  let pidx := findTargetValue pfirst pitems sibs.2
                  let pages4 := pset pages3 parentId
                    (BPage.internal ppar pmax pfirst
                      (removeInternalAt pitems pidx))
                  (⟨t.rootPageId, t.leafMax, t.internalMax, pages4,
                    t.nextPageId⟩, RmStatus.leafMerged)
                | _ =>
                  (⟨t.rootPageId, t.leafMax, t.internalMax, pages2,
                    t.nextPageId⟩, RmStatus.failed)
          | _ =>
            (⟨t.rootPageId, t.leafMax, t.internalMax, pages2, t.nextPageId⟩,
              RmStatus.failed)
      | some (BPage.internal _ _ ifirst iitems) =>
        let tgt := searchInternalFind iitems key
        let childId := valAtIn ifirst iitems tgt
        let rec2 := removeRec key fuel t childId pageId
        let t2 := rec2.1
        let st := rec2.2
        if st ≠ RmStatus.leafMerged ∧ st ≠ RmStatus.internalMerged then
          (t2, RmStatus.success)
        else
          match LRUK.alookup t2.pages pageId with
          | some (BPage.internal par2 max2 first2 items2) =>
            let pg2 := BPage.internal par2 max2 first2 items2
            if decide (minKeyNumP pg2 ≤ keyNumP pg2) then (t2, RmStatus.success)
            else if par2 = -1 then
              if items2.length = 0 then
                let newRoot := first2
                let pages3 :=
                  match LRUK.alookup t2.pages newRoot with
                  | some pg => pset t2.pages newRoot (setParent pg (-1))
                  | none => t2.pages
                (⟨newRoot, t2.leafMax, t2.internalMax, pages3, t2.nextPageId⟩,
                  RmStatus.success)
              else (t2, RmStatus.success)
            else
              match LRUK.alookup t2.pages parentId with
              | some (BPage.internal _ _ pfirst pitems) =>
                let sibs := getSiblings pfirst pitems pageId
                let ib := internalBorrow t2.pages pageId parentId sibs
                if ib.2 then
                  (⟨t2.rootPageId, t2.leafMax, t2.internalMax, ib.1,
                    t2.nextPageId⟩, RmStatus.success)
                else if sibs.1 ≠ -1 then
                  (⟨t2.rootPageId, t2.leafMax, t2.internalMax,
                    internalMerge t2.pages sibs.1 pageId parentId,
                    t2.nextPageId⟩, RmStatus.internalMerged)
                else
                  (⟨t2.rootPageId, t2.leafMax, t2.internalMax,
                    internalMerge t2.pages pageId sibs.2 parentId,
                    t2.nextPageId⟩, RmStatus.internalMerged)
              | _ => (t2, RmStatus.internalMerged)
          | _ => (t2, RmStatus.failed)

/-- The public `Remove`: no-op on an empty tree or an absent key. -/
def remove (fuel : Nat) (t : BPT) (key : Int) : BPT :=
  if t.rootPageId = -1 then t
  else if (searchTree t.pages key fuel t.rootPageId).isNone then t
  else (removeRec key fuel t t.rootPageId (-1)).1

/-- The descent loop of `Begin()`: follow the leftmost pointer down to a
leaf. -/
def beginLoop (pages : List (Int × BPage)) : Nat → Int → Option Int
  | 0, _ => none
  | fuel + 1, pid =>
    match LRUK.alookup pages pid with
    | none => none
    | some (BPage.leaf _ _ _ _) => some pid
    | some (BPage.internal _ _ f its) => beginLoop pages fuel (valAtIn f its 0)

/-- `Begin()`: an iterator is a (leaf page id, cursor) pair; `none` is the
end iterator. -/
def beginIt (fuel : Nat) (t : BPT) : Option (Int × Int) :=
  if t.rootPageId = -1 then none
  else (beginLoop t.pages fuel t.rootPageId).map (fun l => (l, 0))

/-- `operator*`: the pair under the cursor. -/
def itGet (pages : List (Int × BPage)) (it : Int × Int) :
    Option (Int × Int) :=
  match LRUK.alookup pages it.1 with
  | some (BPage.leaf _ _ _ its) => some (its.getD it.2.toNat (0, 0))
  | _ => none

/-- `operator++`: advance the cursor, hop to the next leaf at the end of a
page, and become the end iterator after the last pair of the last leaf. -/
def itNext (pages : List (Int × BPage)) (it : Int × Int) :
    Option (Int × Int) :=
  match LRUK.alookup pages it.1 with
  | some (BPage.leaf _ _ nx its) =>
    if nx = -1 ∧ it.2 = (its.length : Int) - 1 then none
    else if it.2 ≠ (its.length : Int) - 1 then some (it.1, it.2 + 1)
    else some (nx, 0)
  | _ => none

/-- The iteration loop: dereference and advance until the end iterator. -/
def collect (pages : List (Int × BPage)) :
    Nat → Option (Int × Int) → List (Int × Int)
  | 0, _ => []
  | _, none => []
  | fuel + 1, some it =>
    match itGet pages it with
    | none => []
    | some kv => kv :: collect pages fuel (itNext pages it)

/-- Forward iteration from `Begin()` to the end. -/
def iterateTree (fuel : Nat) (t : BPT) : List (Int × Int) :=
  collect t.pages fuel (beginIt fuel t)

end BPTree

namespace BPTree

lemma alookup_pset_self (ps : List (Int × BPage)) (i : Int) (p : BPage) :
    LRUK.alookup (pset ps i p) i = some p := by
  induction ps with
  | nil => simp [pset, LRUK.alookup]
  | cons q rest ih =>
    by_cases hq : q.1 = i
    · simp [pset, hq, LRUK.alookup]
    · simp [pset, hq, LRUK.alookup, ih]

lemma insertPairAt_length (l : List (Int × Int)) (i : Nat) (p : Int × Int) :
    (insertPairAt l i p).length = l.length + 1 := by
  simp [insertPairAt]
  omega

lemma searchTree_invalid (pages : List (Int × BPage)) (key : Int)
    (fuel : Nat) : searchTree pages key fuel (-1) = none := by
  cases fuel <;> simp [searchTree]

lemma searchTree_empty_root (pages : List (Int × BPage)) (key : Int)
    (fuel : Nat) (par nx : Int) (m : Nat) :
    searchTree (pset pages 0 (BPage.leaf par m nx [])) key fuel 0 = none := by
  cases fuel with
  | zero => simp [searchTree]
  | succ fuel =>
    simp [searchTree, alookup_pset_self, searchLeaf]

/-- Claim C10: the public `Insert` returns false exactly when
`SearchBPlusTree` finds the key in the tree as it stood before the call;
on every other input it returns true, whatever the recursive insert's
status — including `FAILED_INSERT`, which the code discards. -/
theorem c10_public_insert_iff (fuel : Nat) (t : BPT) (k v : Int) :
    (insert fuel t k v).2 = false ↔
      (searchTree t.pages k fuel t.rootPageId).isSome := by
  by_cases hroot : t.rootPageId = -1
  · have hrhs : searchTree t.pages k fuel t.rootPageId = none := by
      rw [hroot]
      exact searchTree_invalid t.pages k fuel
    have hlhs : (insert fuel t k v).2 = true := by
      simp only [insert, hroot, if_pos]
      rw [if_neg]
      simp [searchTree_empty_root]
    rw [hlhs, hrhs]
    simp
  · have ht1 : (if t.rootPageId = -1 then
        (⟨0, t.leafMax, t.internalMax,
          pset t.pages 0 (BPage.leaf (-1) t.leafMax (-1) []),
          t.nextPageId⟩ : BPT) else t) = t := if_neg hroot
    rcases hs : searchTree t.pages k fuel t.rootPageId with _ | val
    · have h2 : (insert fuel t k v).2 = true := by
        simp only [insert, ht1, hs]
        simp
      simp [h2, hs]
    · have h2 : (insert fuel t k v).2 = false := by
        simp only [insert, ht1, hs]
        simp
      simp [h2, hs]

end BPTree

namespace BPTree

/-- The conceptual array `SplitLeaf` simulates: the full leaf's pairs with
the inserted pair placed at the slot `SearchLeafInsert` finds. -/
def simIns (items : List (Int × Int)) (pair : Int × Int) :
    List (Int × Int) :=
  insertPairAt items (searchLeafIns items pair.1).toNat pair

/-- Claim C4 as stated: a leaf is full exactly at `max_leaf - 1` pairs, and
a split keeps the first `⌈max_leaf/2⌉` of the `size+1` entries in the left
node and moves the rest right. -/
def C4Claim : Prop :=
  (∀ (par nx : Int) (m : Nat) (its : List (Int × Int)),
    isFullP (BPage.leaf par m nx its) = true ↔ its.length = m - 1) ∧
  (∀ (m : Nat) (items : List (Int × Int)) (pair : Int × Int),
    2 ≤ m → items.length = m - 1 →
    splitLeafItems m items pair =
      ((simIns items pair).take ((m + 1) / 2),
        (simIns items pair).drop ((m + 1) / 2)))

lemma simIns_length (items : List (Int × Int)) (pair : Int × Int) :
    (simIns items pair).length = items.length + 1 :=
  insertPairAt_length items _ pair

lemma splitLeafItems_take_drop (m : Nat) (items : List (Int × Int))
    (pair : Int × Int) (hle : m / 2 ≤ items.length) :
    splitLeafItems m items pair =
      ((simIns items pair).take (m / 2), (simIns items pair).drop (m / 2)) := by
  have hlen : (simIns items pair).length = items.length + 1 :=
    simIns_length items pair
  simp only [splitLeafItems]
  rw [Prod.mk.injEq]
  constructor
  · rw [← simIns, List.take_take]
    congr 1
    omega
  · refine List.ext_getElem? ?_
    intro i
    rw [List.getElem?_map, List.getElem?_drop]
    by_cases hi : i < items.length + 1 - m / 2
    · rw [List.getElem?_range hi]
      have hvalid : m / 2 + i < (simIns items pair).length := by omega
      rw [show Option.map (fun i =>
          if i + m / 2 = items.length then
            (insertPairAt items (searchLeafIns items pair.1).toNat
              pair).getD items.length (0, 0)
          else
            (List.take items.length (insertPairAt items
              (searchLeafIns items pair.1).toNat pair)).getD (i + m / 2)
              (0, 0)) (some i) = some (if i + m / 2 = items.length then
            (insertPairAt items (searchLeafIns items pair.1).toNat
              pair).getD items.length (0, 0)
          else
            (List.take items.length (insertPairAt items
              (searchLeafIns items pair.1).toNat pair)).getD (i + m / 2)
              (0, 0)) from rfl]
      rw [List.getElem?_eq_getElem hvalid]
      rw [Option.some_inj]
      by_cases hn : i + m / 2 = items.length
      · rw [if_pos hn, ← simIns]
        rw [show (simIns items pair).getD items.length (0, 0) =
          (simIns items pair).getD (m / 2 + i) (0, 0) from by
            rw [show m / 2 + i = items.length from by omega]]
        rw [List.getD_eq_getElem?_getD, List.getElem?_eq_getElem hvalid]
        rfl
      · rw [if_neg hn]
        rw [List.getD_eq_getElem?_getD, ← simIns, List.getElem?_take,
          if_pos (by omega : i + m / 2 < items.length)]
        rw [show i + m / 2 = m / 2 + i from by omega]
        rw [List.getElem?_eq_getElem hvalid]
        rfl
    · rw [List.getElem?_eq_none (by simp; omega : (List.range
        (items.length + 1 - m / 2)).length ≤ i),
        List.getElem?_eq_none (by omega : (simIns items pair).length ≤
          m / 2 + i)]
      rfl

/-- Claim C4 as stated is false on its split half: `SplitLeaf` computes
`leave_num` as `std::ceil(GetMaxSize() / 2)`, but `GetMaxSize() / 2` is
already an integer division, so for odd `max_leaf` the left node keeps
`⌊max_leaf/2⌋` entries, not `⌈max_leaf/2⌉`: with `max_leaf = 5` and the
full leaf `[1, 2, 3, 4]` receiving 5, the left node keeps 2 entries, not
3. -/
theorem c4_counterexample : ¬ C4Claim := by
  rintro ⟨_, h⟩
  have := h 5 [(1, 0), (2, 0), (3, 0), (4, 0)] (5, 0) (by decide) (by decide)
  exact absurd this (by decide)

/-- Amended claim C4: a leaf is full exactly at `max_leaf - 1` pairs, and a
split of the full leaf keeps the first `⌊max_leaf/2⌋` of the `size+1`
entries (the pairs with the new one placed at its sorted slot) in the left
node, moves the rest to the right node, and the key posted to the parent is
the right node's first key — the entry at index `⌊max_leaf/2⌋`. -/
theorem c4_leaf_split_amended (m : Nat) (items : List (Int × Int))
    (pair : Int × Int) (hm : 2 ≤ m) (hfull : items.length = m - 1) :
    (∀ (par nx : Int), isFullP (BPage.leaf par m nx items) = true) ∧
    splitLeafItems m items pair =
      ((simIns items pair).take (m / 2), (simIns items pair).drop (m / 2)) ∧
    keyAt0 (splitLeafItems m items pair).2 0 =
      ((simIns items pair).getD (m / 2) (0, 0)).1 := by
  have hsplit := splitLeafItems_take_drop m items pair (by omega)
  refine ⟨?_, hsplit, ?_⟩
  · intro par nx
    simp [isFullP, keyNumP, maxSizeOf, hfull]
  · rw [hsplit]
    simp only [keyAt0]
    rw [List.getD_eq_getElem?_getD, List.getD_eq_getElem?_getD,
      List.getElem?_drop]
    rfl

/-- Witness for the amended C4: `max_leaf = 4`, full leaf
`[(1,11),(2,21),(3,31)]`, inserting `(5,51)`; the split keeps 2 pairs left
and moves 2 right, posting key 3. -/
theorem c4_leaf_split_amended_witness :
    (2 ≤ 4 ∧ ([(1, 11), (2, 21), (3, 31)] : List (Int × Int)).length = 4 - 1) ∧
    (splitLeafItems 4 [(1, 11), (2, 21), (3, 31)] (5, 51) =
      ((simIns [(1, 11), (2, 21), (3, 31)] (5, 51)).take (4 / 2),
        (simIns [(1, 11), (2, 21), (3, 31)] (5, 51)).drop (4 / 2)) ∧
      keyAt0 (splitLeafItems 4 [(1, 11), (2, 21), (3, 31)] (5, 51)).2 0 =
        ((simIns [(1, 11), (2, 21), (3, 31)] (5, 51)).getD (4 / 2) (0, 0)).1) :=
  ⟨⟨by decide, by decide⟩,
    (c4_leaf_split_amended 4 [(1, 11), (2, 21), (3, 31)] (5, 51) (by decide)
      (by decide)).2⟩

end BPTree

end Spec2Proof
